import Mathlib

/-!
A shallow embedding of the `schwifty` IBAN/BIC/BBAN validation library
(`schwifty/common.py`, `registry.py`, `checksum/*.py`, `bban.py`, `bic.py`,
`iban.py`).  Strings are modelled as `List Char`, Python exceptions as an
explicit error type, and the process-wide dataset registry as an explicit
`Registry` record passed to every operation that reads it.
-/

namespace Schwifty

/-! ## Python string primitives (`common.py`) -/

/-- ASCII whitespace recognised by the regex `\s` used in `common.clean`
(space, tab, newline, carriage return, vertical tab, form feed). -/
def isPySpace (c : Char) : Bool :=
  c.toNat = 32 || c.toNat = 9 || c.toNat = 10 || c.toNat = 13 || c.toNat = 11 || c.toNat = 12

/-- `str.upper` restricted to ASCII letters (all inputs here are ASCII):
`'a'`-`'z'` (97-122) map to `'A'`-`'Z'` (65-90). -/
def pyUpper (c : Char) : Char :=
  if 97 ≤ c.toNat ∧ c.toNat ≤ 122 then Char.ofNat (c.toNat - 32) else c

/-- `common.clean`: `re.sub(r"\s+", "", s).upper()`. -/
def clean (s : List Char) : List Char :=
  (s.filter (fun c => !isPySpace c)).map pyUpper

/-- Python `s[a:b]` for `0 ≤ a`, `0 ≤ b`. -/
def pySlice (s : List Char) (a b : Nat) : List Char :=
  (s.drop a).take (b - a)

/-- `common.Base._get_slice(start, end)`: returns the slice when
`start < len(self) and (end is None or end <= len(self))`, else `""`. -/
def getSlice (s : List Char) (start : Nat) (stop : Option Nat) : List Char :=
  if decide (start < s.length) && (match stop with | none => true | some e => decide (e ≤ s.length)) then
    match stop with
    | none => s.drop start
    | some e => pySlice s start e
  else []

/-- Python `str.zfill(width)` (incl. the sign-aware corner case). -/
def zfill (s : List Char) (w : Nat) : List Char :=
  if w ≤ s.length then s
  else
    match s with
    | [] => List.replicate w '0'
    | c :: rest =>
      if c = '+' ∨ c = '-' then c :: (List.replicate (w - (rest.length + 1)) '0' ++ rest)
      else List.replicate (w - (rest.length + 1)) '0' ++ (c :: rest)

/-! ## Digits and numerification (`checksum/__init__.py`) -/

/-- Index of a character in `_alphabet = string.digits + string.ascii_uppercase`;
`none` models the `ValueError` raised by `str.index` for other characters. -/
def charIdx (c : Char) : Option Nat :=
  if 48 ≤ c.toNat ∧ c.toNat ≤ 57 then some (c.toNat - 48)
  else if 65 ≤ c.toNat ∧ c.toNat ≤ 90 then some (c.toNat - 65 + 10)
  else none

/-- Value of a decimal digit character; `none` models `int(c)` failing. -/
def charDigit (c : Char) : Option Nat :=
  if 48 ≤ c.toNat ∧ c.toNat ≤ 57 then some (c.toNat - 48) else none

/-- The decimal digit character for `n < 10`. -/
def digitChar (n : Nat) : Char := Char.ofNat (48 + n)

/-- Auxiliary fueled decimal printer (fuel `n + 1` always suffices). -/
def natReprAux : Nat → Nat → List Char
  | 0, _ => []
  | fuel + 1, n =>
    if n < 10 then [digitChar n]
    else natReprAux fuel (n / 10) ++ [digitChar (n % 10)]

/-- Python `str(n)` for a natural number. -/
def natRepr (n : Nat) : List Char := natReprAux (n + 1) n

/-- Python `int(s)` on a string expected to consist of decimal digits:
`none` models the `ValueError` on an empty or non-digit string. -/
def pyInt (s : List Char) : Option Nat :=
  if s = [] then none
  else s.foldlM (fun a c => (charDigit c).map (fun d => a * 10 + d)) 0

/-- `checksum.numerify`: `int("".join(str(_alphabet.index(c)) for c in value))`. -/
def numerify (s : List Char) : Option Nat := do
  let idxs ← s.mapM charIdx
  pyInt ((idxs.map natRepr).flatten)

/-- `f"{x:0{n}d}"` for `n = 2`: decimal representation left-padded to 2 chars. -/
def fmt02 (n : Nat) : List Char :=
  let ds := natRepr n
  List.replicate (2 - ds.length) '0' ++ ds

/-! ## Error taxonomy (`exceptions.py` plus plain Python errors) -/

/-- Exceptions observable from the library.  The first block are the
`SchwiftyException` subclasses from `exceptions.py`; `schwiftyBase` is a plain
`SchwiftyException` (raised for unsupported BBAN generation); `valueError`,
`keyError` and `indexError` model plain Python exceptions that can escape
helper code and are *not* `SchwiftyException`s. -/
inductive Err
  | invalidLength
  | invalidStructure
  | invalidCountryCode
  | invalidBankCode
  | invalidBranchCode
  | invalidAccountCode
  | invalidChecksumDigits
  | invalidBBANChecksum
  | generateRandomOverflow
  | schwiftyBase
  | valueError
  | keyError
  | indexError
  deriving DecidableEq, Repr

instance {ε α : Type} [DecidableEq ε] [DecidableEq α] : DecidableEq (Except ε α)
  | .ok a, .ok b =>
    if h : a = b then .isTrue (h ▸ rfl) else .isFalse (fun hc => h (Except.ok.inj hc))
  | .error a, .error b =>
    if h : a = b then .isTrue (h ▸ rfl) else .isFalse (fun hc => h (Except.error.inj hc))
  | .ok _, .error _ => .isFalse (fun hc => Except.noConfusion hc)
  | .error _, .ok _ => .isFalse (fun hc => Except.noConfusion hc)

/-- Whether the error is a `SchwiftyException` (caught by `is_valid`). -/
def Err.isSchwifty : Err → Bool
  | .valueError => false
  | .keyError => false
  | .indexError => false
  | _ => true

/-! ## Components and country specs (`domain.py`, dataset registry) -/

/-- `domain.Component`, in declaration order (which is also the iteration
order of `for component in Component`). -/
inductive Component
  | account_id
  | account_type
  | account_code
  | account_holder_id
  | currency_code
  | bank_code
  | branch_code
  | national_checksum_digits
  deriving DecidableEq, Repr

/-- The members of `Component` in Python enumeration order. -/
def Component.all : List Component :=
  [.account_id, .account_type, .account_code, .account_holder_id,
   .currency_code, .bank_code, .branch_code, .national_checksum_digits]

/-- `bban.Range`: a half-open position range. -/
structure Range where
  start : Nat
  stop : Nat
  deriving DecidableEq, Repr

def Range.length (r : Range) : Nat := r.stop - r.start

/-- `Range.is_empty`: `start == 0 and end == 0`. -/
def Range.isEmpty (r : Range) : Bool := r.start = 0 && r.stop = 0

/-- `Range.cut`. -/
def Range.cut (r : Range) (s : List Char) : List Char := pySlice s r.start r.stop

/-- A country's IBAN spec as consumed by the engines.  `positions` is `none`
when the `"positions"` key is absent; otherwise the inner function returns
the range for a component, already defaulting absent components to `[0, 0]`
(mirroring `spec.get("positions", {}).get(component, [0, 0])`).  `regexOk` is
the compiled BBAN regex (`^...$`-anchored, so matching means full match). -/
structure CountrySpec where
  bban_length : Nat
  iban_length : Nat
  positions : Option (Component → Range)
  regexOk : List Char → Bool
  bic_lookup_components : Option (List Component)

/-- `bban._get_position_range`. -/
def getPositionRange (spec : CountrySpec) (c : Component) : Range :=
  (spec.positions.getD (fun _ => ⟨0, 0⟩)) c

/-- A bank directory entry (only the fields read by the modelled code). -/
structure BankEntry where
  bic : List Char
  primary : Bool
  checksum_algo : Option String

/-- The dataset registry: the `"iban"` country-spec mapping and the derived
`"bank_code"` index keyed by `(country_code, bank_code)`. -/
structure Registry where
  iban : List Char → Option CountrySpec
  bank_code : List Char × List Char → Option (List BankEntry)

/-- `bban._get_bban_spec` / `IBAN.spec`: raises `InvalidCountryCode` for an
unknown country. -/
def getBbanSpec (reg : Registry) (cc : List Char) : Except Err CountrySpec :=
  match reg.iban cc with
  | some spec => .ok spec
  | none => .error .invalidCountryCode

/-! ## Checksum algorithms (`checksum/__init__.py` and `checksum/<country>.py`) -/

/-- `checksum.iso7064(n, mod, post_process)` with the fixed `n_digits = 2`. -/
def iso7064 (n : Nat) (m : Nat) (post_process : Nat → Nat) : List Char :=
  fmt02 (post_process (n % m))

/-- `checksum.weighted(value, mod, weights)`; `zip` truncates to the shorter
argument, a non-digit character models `int(c)` raising `ValueError`. -/
def weighted (value : List Char) (m : Nat) (weights : List Nat) : Except Err Nat :=
  match (weights.zip value).mapM (fun p => (charDigit p.2).map (fun d => p.1 * d)) with
  | none => .error .valueError
  | some terms => .ok (terms.sum % m)

/-- `checksum.luhn`. -/
def luhn (value : List Char) : Except Err (List Char) :=
  match value.mapM charIdx with
  | none => .error .valueError
  | some idxs =>
    let numerical := ((idxs.map natRepr).flatten).map (fun c => c.toNat - 48)
    let processed := (numerical.reverse.enum.map (fun p => natRepr ((2 - p.1 % 2) * p.2))).flatten
    let total := (processed.map (fun c => c.toNat - 48)).sum
    .ok [digitChar ((10 - total % 10) % 10)]

/-- A checksum strategy: `Algorithm.accepts`, `compute` and `validate`. -/
structure Algorithm where
  accepts : List Component
  compute : List (List Char) → Except Err (List Char)
  validate : List (List Char) → List Char → Except Err Bool

/-- `Algorithm.accepts` default: `[BANK_CODE, BRANCH_CODE, ACCOUNT_CODE]`. -/
def defaultAccepts : List Component := [.bank_code, .branch_code, .account_code]

/-- The inherited `Algorithm.validate`: `compute(components) == expected`. -/
def defaultValidate (compute : List (List Char) → Except Err (List Char)) :
    List (List Char) → List Char → Except Err Bool :=
  fun components expected => (compute components).map (fun r => decide (r = expected))

/-- `numerify` with the `ValueError` made explicit. -/
def numerifyE (s : List Char) : Except Err Nat :=
  match numerify s with
  | some n => .ok n
  | none => .error .valueError

/-- `ISO7064_mod97_10.pre_process`: `numerify("".join(components)) * 100`. -/
def iso7064Pre (components : List (List Char)) : Except Err Nat :=
  (numerifyE components.flatten).map (· * 100)

/-- `ISO7064_mod97_10.compute` (default `post_process(r) = 98 - r`). -/
def iso7064DefaultCompute (components : List (List Char)) : Except Err (List Char) :=
  (iso7064Pre components).map (fun n => iso7064 n 97 (fun r => 98 - r))

/-- The `ISO7064_mod97_10` algorithm instance used for the IBAN checksum and
registered (via `checksum/iso7064_mod97_10.py`) for BT/ME/MK/PT/RS/SI/TL. -/
def ISO7064_mod97_10 : Algorithm :=
  ⟨defaultAccepts, iso7064DefaultCompute, defaultValidate iso7064DefaultCompute⟩

/-- `checksum/iso7064_mod97_10_variant.py` (MR/TN): `post_process(r) = 97 - r`. -/
def iso7064VariantCompute (components : List (List Char)) : Except Err (List Char) :=
  (iso7064Pre components).map (fun n => iso7064 n 97 (fun r => 97 - r))

def iso7064VariantAlgorithm : Algorithm :=
  ⟨defaultAccepts, iso7064VariantCompute, defaultValidate iso7064VariantCompute⟩

/-- `checksum/belgium.py`: `pre_process` divides by 100 (dropping the appended
`"00"`), `post_process` maps 0 to 97. -/
def belgiumCompute (components : List (List Char)) : Except Err (List Char) :=
  (iso7064Pre components).map (fun n => iso7064 (n / 100) 97 (fun r => if r ≠ 0 then r else 97))

def belgiumAlgorithm : Algorithm :=
  ⟨defaultAccepts, belgiumCompute, defaultValidate belgiumCompute⟩

/-- The letter-to-digit table of `checksum/france.py` (`numerics`): digits map
to themselves, `A`-`I` to 1-9, `J`-`R` to 1-9, `S`-`Z` to 2-9; anything else
models the `KeyError`. -/
def franceChar (c : Char) : Option Char :=
  if 48 ≤ c.toNat ∧ c.toNat ≤ 57 then some c
  else if 65 ≤ c.toNat ∧ c.toNat ≤ 73 then some (digitChar (c.toNat - 65 + 1))
  else if 74 ≤ c.toNat ∧ c.toNat ≤ 82 then some (digitChar (c.toNat - 74 + 1))
  else if 83 ≤ c.toNat ∧ c.toNat ≤ 90 then some (digitChar (c.toNat - 83 + 2))
  else none

/-- `france.numerify`: `int("".join(numerics[c] for c in value))`. -/
def franceNumerify (s : List Char) : Except Err Nat :=
  match s.mapM franceChar with
  | none => .error .keyError
  | some cs =>
    match pyInt cs with
    | some n => .ok n
    | none => .error .valueError

/-- `checksum/france.py` (FR/MC): weighted sum `89*bank + 15*branch +
3*account`, `post_process(r) = 97 - r`. -/
def franceCompute (components : List (List Char)) : Except Err (List Char) :=
  match components with
  | [bank_code, branch_code, account_code] => do
    let b ← franceNumerify bank_code
    let r ← franceNumerify branch_code
    let a ← franceNumerify account_code
    .ok (iso7064 (89 * b + 15 * r + 3 * a) 97 (fun x => 97 - x))
  | _ => .error .valueError

def franceAlgorithm : Algorithm :=
  ⟨defaultAccepts, franceCompute, defaultValidate franceCompute⟩

/-- `checksum/czech_republic.py` weights. -/
def czechWeights : List Nat := [6, 3, 7, 9, 10, 5, 8, 4, 2, 1]

/-- CZ/SK `compute`: there is no synthesizable digit, the empty string. -/
def czechCompute (_ : List (List Char)) : Except Err (List Char) := .ok []

/-- CZ/SK `validate`: both weighted sums must be 0 mod 11. -/
def czechValidate (components : List (List Char)) (_ : List Char) : Except Err Bool :=
  match components with
  | [branch_code, account_code] => do
    let d1 ← weighted branch_code 11 (czechWeights.drop 4)
    let d2 ← weighted account_code 11 czechWeights
    .ok (decide (d1 = 0 ∧ d2 = 0))
  | _ => .error .valueError

def czechAlgorithm : Algorithm :=
  ⟨[.branch_code, .account_code], czechCompute, czechValidate⟩

/-- `checksum/estonia.py`: cyclic `[7, 3, 1]` weights over the reversed
concatenation, `digit = 0 if remainder == 0 else 10 - remainder`. -/
def estoniaCompute (components : List (List Char)) : Except Err (List Char) := do
  let joined := components.flatten
  let w ← weighted joined.reverse 10 ((List.range joined.length).map (fun i => [7, 3, 1].getD (i % 3) 0))
  .ok [digitChar (if w = 0 then w else 10 - w)]

def estoniaAlgorithm : Algorithm :=
  ⟨[.branch_code, .account_code], estoniaCompute, defaultValidate estoniaCompute⟩

/-- `checksum/finland.py`: the Luhn digit of the joined components. -/
def finlandCompute (components : List (List Char)) : Except Err (List Char) :=
  luhn components.flatten

def finlandAlgorithm : Algorithm :=
  ⟨[.bank_code, .account_code], finlandCompute, defaultValidate finlandCompute⟩

/-- `checksum/iceland.py` `compute`: weighted mod-11 over the account-holder
national id with 11-to-0 passthrough at remainder 0. -/
def icelandCompute (components : List (List Char)) : Except Err (List Char) :=
  match components with
  | [account_holder_id] => do
    let w ← weighted account_holder_id 11 [3, 2, 7, 6, 5, 4, 3, 2]
    .ok (if w = 0 then natRepr w else natRepr (11 - w))
  | _ => .error .valueError

/-- `checksum/iceland.py` `validate`: the computed digit is compared against
position 8 of the account-holder id itself (`IndexError` if too short). -/
def icelandValidate (components : List (List Char)) (_ : List Char) : Except Err Bool :=
  match components with
  | [account_holder_id] => do
    let c ← icelandCompute [account_holder_id]
    match account_holder_id.get? 8 with
    | some ch => .ok (decide (c = [ch]))
    | none => .error .indexError
  | _ => .error .valueError

def icelandAlgorithm : Algorithm :=
  ⟨[.account_holder_id], icelandCompute, icelandValidate⟩

/-- `checksum/italy.py` permutation table for odd (1-based) positions. -/
def italyOdds : List Nat :=
  [1, 0, 5, 7, 9, 13, 15, 17, 19, 21, 2, 4, 18, 20, 11, 3, 6, 8, 12, 14, 16, 10, 22, 25, 24, 23]

/-- `italy.get_index`: digit value, else index of the uppercased letter. -/
def italyGetIndex (c : Char) : Option Nat :=
  match charDigit c with
  | some d => some d
  | none =>
    if 65 ≤ (pyUpper c).toNat ∧ (pyUpper c).toNat ≤ 90 then some ((pyUpper c).toNat - 65) else none

/-- `checksum/italy.py` (IT/SM): alternating direct/permuted values summed
mod 26, mapped back to a letter. -/
def italyCompute (components : List (List Char)) : Except Err (List Char) :=
  match components.flatten.enum.mapM (fun p =>
      (italyGetIndex p.2).map (fun idx => if (p.1 + 1) % 2 = 0 then idx else italyOdds.getD idx 0)) with
  | none => .error .valueError
  | some terms => .ok [Char.ofNat (65 + terms.sum % 26)]

def italyAlgorithm : Algorithm :=
  ⟨defaultAccepts, italyCompute, defaultValidate italyCompute⟩

/-- `checksum/norway.py`: weighted mod-11 over bank+account (leading `"00"`
of the account strips the bank part), check digit 10 raises
`InvalidAccountCode`, 11 maps to 0. -/
def norwayCompute (components : List (List Char)) : Except Err (List Char) :=
  match components with
  | [bank_code, account_code] =>
    match ([5, 4, 3, 2, 7, 6, 5, 4, 3, 2].zip
        (if account_code.take 2 = ['0', '0'] then account_code.drop 2
         else bank_code ++ account_code)).mapM
        (fun p => (charDigit p.2).map (fun d => p.1 * d)) with
    | none => .error .valueError
    | some terms =>
      if 11 - terms.sum % 11 = 10 then .error .invalidAccountCode
      else .ok (natRepr ((11 - terms.sum % 11) % 11))
  | _ => .error .valueError

def norwayAlgorithm : Algorithm :=
  ⟨[.bank_code, .account_code], norwayCompute, defaultValidate norwayCompute⟩

/-- `checksum/poland.py`: weighted mod 10 with 11-complement style mapping. -/
def polandCompute (components : List (List Char)) : Except Err (List Char) := do
  let w ← weighted components.flatten 10 [3, 9, 7, 1, 3, 9, 7]
  .ok [digitChar (if w = 0 then w else 10 - w)]

def polandAlgorithm : Algorithm :=
  ⟨[.bank_code, .branch_code], polandCompute, defaultValidate polandCompute⟩

/-- `checksum/spain.py` weights. -/
def spainWeights : List Nat := [1, 2, 4, 8, 5, 10, 9, 7, 3, 6]

/-- `spain.reconcile`: 11 becomes 0, 10 becomes 1. -/
def reconcile (n : Nat) : Nat := if n = 11 then 0 else if n = 10 then 1 else n

/-- `checksum/spain.py`: two reconciled check digits over disjoint windows. -/
def spainCompute (components : List (List Char)) : Except Err (List Char) :=
  match components with
  | [bank_code, branch_code, account_code] => do
    let w1 ← weighted (bank_code ++ branch_code) 11 (spainWeights.drop 2)
    let w2 ← weighted account_code 11 spainWeights
    .ok (natRepr (reconcile (11 - w1)) ++ natRepr (reconcile (11 - w2)))
  | _ => .error .valueError

def spainAlgorithm : Algorithm :=
  ⟨defaultAccepts, spainCompute, defaultValidate spainCompute⟩

/-- The `checksum.algorithms` registration dict, keyed
`"{country_code}:{name}"` with name `"default"` throughout (the Netherlands
algorithm is intentionally not registered, as in the source).  Keys are
unique, so association-list lookup models the Python dict exactly. -/
def algorithmsList : List (String × Algorithm) :=
  [("BE:default", belgiumAlgorithm),
   ("BT:default", ISO7064_mod97_10), ("ME:default", ISO7064_mod97_10),
   ("MK:default", ISO7064_mod97_10), ("PT:default", ISO7064_mod97_10),
   ("RS:default", ISO7064_mod97_10), ("SI:default", ISO7064_mod97_10),
   ("TL:default", ISO7064_mod97_10),
   ("MR:default", iso7064VariantAlgorithm), ("TN:default", iso7064VariantAlgorithm),
   ("FR:default", franceAlgorithm), ("MC:default", franceAlgorithm),
   ("CZ:default", czechAlgorithm), ("SK:default", czechAlgorithm),
   ("EE:default", estoniaAlgorithm),
   ("FI:default", finlandAlgorithm),
   ("IS:default", icelandAlgorithm),
   ("IT:default", italyAlgorithm), ("SM:default", italyAlgorithm),
   ("NO:default", norwayAlgorithm),
   ("PL:default", polandAlgorithm),
   ("ES:default", spainAlgorithm)]

/-- `checksum.algorithms.get(key)`. -/
def algorithms (key : String) : Option Algorithm :=
  (algorithmsList.find? (fun p => decide (p.1 = key))).map (fun p => p.2)

/-! ## BBAN engine (`bban.py`) -/

/-- `bban.compute_national_checksum`. -/
def compute_national_checksum (country_code : List Char) (components : Component → List Char) :
    Except Err (List Char) :=
  match algorithms (String.mk country_code ++ ":default") with
  | none => .ok []
  | some algo => algo.compute (algo.accepts.map components)

/-- A `BBAN` value object: the country code plus the cleaned value string. -/
structure BBAN where
  country_code : List Char
  val : List Char
  deriving DecidableEq, Repr

/-- The `BBAN` constructor (`common.Base.__new__` cleans the value). -/
def mkBBAN (country_code v : List Char) : BBAN := ⟨country_code, clean v⟩

/-- `BBAN._get_component`: slice the value at the spec's position range. -/
def componentOf (spec : CountrySpec) (b : BBAN) (c : Component) : List Char :=
  let position := getPositionRange spec c
  getSlice b.val position.start (some position.stop)

/-- One overlay write of `BBAN.from_components`:
`bban = bban[: range_.start] + value + bban[range_.end :]` (skipped when the
range `is_empty`). -/
def overlayStep (ranges : Component → Range) (comps : Component → List Char)
    (acc : List Char) (k : Component) : List Char :=
  if (ranges k).isEmpty then acc
  else acc.take (ranges k).start ++ comps k ++ acc.drop (ranges k).stop

/-- The overlay loop of `BBAN.from_components` over the components in
(Python dict insertion = `Component` declaration) order. -/
def overlay (ranges : Component → Range) (comps : Component → List Char)
    (init : List Char) : List Char :=
  Component.all.foldl (overlayStep ranges comps) init

/-- The first loop of `BBAN.from_components`:
`components[key] = common.clean(values.get(key, "")).zfill(range_.length)`. -/
def paddedComponents (values : Component → Option (List Char)) (ranges : Component → Range) :
    Component → List Char :=
  fun k => zfill (clean ((values k).getD [])) (ranges k).length

/-- The bank-code auto-split of `BBAN.from_components`: when the padded
bank-code input has exactly `bank_code_length + branch_code_length`
characters it is cut into bank-code and branch-code. -/
def splitBankCode (ranges : Component → Range) (comps : Component → List Char) :
    Component → List Char :=
  if (comps .bank_code).length = (ranges .bank_code).length + (ranges .branch_code).length then
    fun k =>
      match k with
      | .branch_code =>
        pySlice (comps .bank_code) (ranges .bank_code).length
          ((ranges .bank_code).length + (ranges .branch_code).length)
      | .bank_code => (comps .bank_code).take (ranges .bank_code).length
      | _ => comps k
  else comps

/-- The checksum splice of `BBAN.from_components`: a nonempty computed
checksum is stored under `NATIONAL_CHECKSUM_DIGITS`. -/
def spliceChecksum (comps : Component → List Char) (checksum : List Char) :
    Component → List Char :=
  if checksum ≠ [] then
    fun k => if k = .national_checksum_digits then checksum else comps k
  else comps

/-- `BBAN.from_components`.  `values` models the keyword arguments
(`values.get(key, "")` for absent keys). -/
def BBAN.from_components (reg : Registry) (country_code : List Char)
    (values : Component → Option (List Char)) : Except Err BBAN :=
  match getBbanSpec reg country_code with
  | .error e => .error e
  | .ok spec =>
    match spec.positions with
    | none => .error .schwiftyBase
    | some ranges =>
      if (ranges .bank_code).length
          < (splitBankCode ranges (paddedComponents values ranges) .bank_code).length then
        .error .invalidBankCode
      else if (ranges .branch_code).length
          < (splitBankCode ranges (paddedComponents values ranges) .branch_code).length then
        .error .invalidBranchCode
      else if (ranges .account_code).length
          < (splitBankCode ranges (paddedComponents values ranges) .account_code).length then
        .error .invalidAccountCode
      else
        match compute_national_checksum country_code
            (splitBankCode ranges (paddedComponents values ranges)) with
        | .error e => .error e
        | .ok checksum =>
          .ok (mkBBAN country_code
            (overlay ranges
              (spliceChecksum (splitBankCode ranges (paddedComponents values ranges)) checksum)
              (List.replicate spec.bban_length '0')))

/-- `BBAN._get_component` with the `self.spec` registry lookup made explicit
(raising `InvalidCountryCode` for an unknown country, as `self.spec` does). -/
def BBAN.component (reg : Registry) (b : BBAN) (c : Component) : Except Err (List Char) :=
  (getBbanSpec reg b.country_code).map (fun spec => componentOf spec b c)

def BBAN.bank_code (reg : Registry) (b : BBAN) : Except Err (List Char) :=
  b.component reg .bank_code

def BBAN.branch_code (reg : Registry) (b : BBAN) : Except Err (List Char) :=
  b.component reg .branch_code

def BBAN.account_code (reg : Registry) (b : BBAN) : Except Err (List Char) :=
  b.component reg .account_code

def BBAN.national_checksum_digits (reg : Registry) (b : BBAN) : Except Err (List Char) :=
  b.component reg .national_checksum_digits

/-- `BBAN.bank`: the first directory entry for the lookup key built from
`bic_lookup_components` (default `[BANK_CODE]`), `none` when absent/empty. -/
def BBAN.bank (reg : Registry) (b : BBAN) : Except Err (Option BankEntry) :=
  (getBbanSpec reg b.country_code).map (fun spec =>
    let lookup_by := spec.bic_lookup_components.getD [.bank_code]
    let key := (lookup_by.map (componentOf spec b)).flatten
    match reg.bank_code (b.country_code, key) with
    | none => none
    | some [] => none
    | some (e :: _) => some e)

/-- `BBAN.validate_national_checksum`. -/
def BBAN.validate_national_checksum (reg : Registry) (b : BBAN) : Except Err Bool :=
  match b.bank reg with
  | .error e => .error e
  | .ok bank =>
    let algo_name := (bank.bind BankEntry.checksum_algo).getD "default"
    match algorithms (String.mk b.country_code ++ ":" ++ algo_name) with
    | none => .ok true
    | some algo =>
      match getBbanSpec reg b.country_code with
      | .error e => .error e
      | .ok spec =>
        let components := algo.accepts.map (componentOf spec b)
        match algo.validate components (componentOf spec b .national_checksum_digits) with
        | .error e => .error e
        | .ok v => if v then .ok false else .error .invalidBBANChecksum

/-! ## IBAN engine (`iban.py`) -/

/-- An `IBAN` value object holding the cleaned string. -/
structure IBAN where
  val : List Char
  deriving DecidableEq, Repr

/-- The `IBAN` constructor normalization (`common.Base.__new__`). -/
def mkIBAN (v : List Char) : IBAN := ⟨clean v⟩

def IBAN.country_code (i : IBAN) : List Char := getSlice i.val 0 (some 2)

def IBAN.checksum_digits (i : IBAN) : List Char := getSlice i.val 2 (some 4)

/-- The owned BBAN, built in `IBAN.__init__` from the slice after position 4. -/
def IBAN.bban (i : IBAN) : BBAN := mkBBAN i.country_code (getSlice i.val 4 none)

/-- `IBAN.numeric`: `numerify(self.bban + self[:4])`. -/
def IBAN.numeric (i : IBAN) : Option Nat := numerify (i.bban.val ++ i.val.take 4)

/-- `IBAN._validate_characters`: `re.match(r"[A-Z]{2}\d{2}[A-Z]*", ...)` is a
prefix match, so it succeeds iff the first two characters are uppercase
letters and the following two are digits. -/
def IBAN.validateCharacters (i : IBAN) : Except Err Unit :=
  match i.val with
  | a :: b :: c :: d :: _ =>
    if (65 ≤ a.toNat ∧ a.toNat ≤ 90) ∧ (65 ≤ b.toNat ∧ b.toNat ≤ 90)
        ∧ (48 ≤ c.toNat ∧ c.toNat ≤ 57) ∧ (48 ≤ d.toNat ∧ d.toNat ≤ 57)
    then .ok () else .error .invalidStructure
  | _ => .error .invalidStructure

/-- `IBAN._validate_length` (the `self.spec` lookup may raise
`InvalidCountryCode` first). -/
def IBAN.validateLength (reg : Registry) (i : IBAN) : Except Err Unit :=
  match getBbanSpec reg i.country_code with
  | .error e => .error e
  | .ok spec => if spec.iban_length ≠ i.val.length then .error .invalidLength else .ok ()

/-- `IBAN._validate_format`: the country's compiled (anchored) BBAN regex. -/
def IBAN.validateFormat (reg : Registry) (i : IBAN) : Except Err Unit :=
  match getBbanSpec reg i.country_code with
  | .error e => .error e
  | .ok spec => if spec.regexOk i.bban.val then .ok () else .error .invalidStructure

/-- `IBAN._validate_iban_checksum`: `self.numeric % 97 != 1 or not
checksum_algo.validate([self.bban, self.country_code], self.checksum_digits)`
raises `InvalidChecksumDigits` (short-circuit evaluation). -/
def IBAN.validateIbanChecksum (i : IBAN) : Except Err Unit :=
  match i.numeric with
  | none => .error .valueError
  | some n =>
    if n % 97 ≠ 1 then .error .invalidChecksumDigits
    else
      match ISO7064_mod97_10.validate [i.bban.val, i.country_code] i.checksum_digits with
      | .error e => .error e
      | .ok true => .ok ()
      | .ok false => .error .invalidChecksumDigits

/-- `IBAN.validate`. -/
def IBAN.validate (reg : Registry) (i : IBAN) (validate_bban : Bool) : Except Err Bool :=
  i.validateCharacters >>= fun _ =>
  i.validateLength reg >>= fun _ =>
  i.validateFormat reg >>= fun _ =>
  i.validateIbanChecksum >>= fun _ =>
  (if validate_bban then (i.bban.validate_national_checksum reg).map (fun _ => ()) else .ok ()) >>= fun _ =>
  .ok true

/-- `IBAN.is_valid`: catches every `SchwiftyException` as `False`. -/
def IBAN.is_valid (reg : Registry) (i : IBAN) : Except Err Bool :=
  match i.validate reg false with
  | .ok b => .ok b
  | .error e => if e.isSchwifty then .ok false else .error e

/-- `IBAN.from_bban`: compute the two checksum digits with
`ISO7064_mod97_10` and build (and validate) `country_code + digits + bban`. -/
def IBAN.from_bban (reg : Registry) (country_code bban : List Char) : Except Err IBAN :=
  match ISO7064_mod97_10.compute [bban, country_code] with
  | .error e => .error e
  | .ok digits =>
    let i := mkIBAN (country_code ++ digits ++ bban)
    match i.validate reg false with
    | .error e => .error e
    | .ok _ => .ok i

/-- The keyword arguments passed by `IBAN.generate` to `from_components`. -/
def componentValues (bank_code branch_code account_code : List Char) :
    Component → Option (List Char) :=
  fun k =>
    match k with
    | .bank_code => some bank_code
    | .branch_code => some branch_code
    | .account_code => some account_code
    | _ => none

/-- `IBAN.generate`: `from_bban` over `BBAN.from_components`. -/
def IBAN.generate (reg : Registry) (country_code bank_code account_code branch_code : List Char) :
    Except Err IBAN :=
  match BBAN.from_components reg country_code
      (componentValues bank_code branch_code account_code) with
  | .error e => .error e
  | .ok b => IBAN.from_bban reg country_code b.val

/-- `IBAN.bank_code` property (forwards to the owned BBAN). -/
def IBAN.bank_code (reg : Registry) (i : IBAN) : Except Err (List Char) :=
  i.bban.bank_code reg

/-- `IBAN.account_code` property (forwards to the owned BBAN). -/
def IBAN.account_code (reg : Registry) (i : IBAN) : Except Err (List Char) :=
  i.bban.account_code reg

/-! ## BIC engine (`bic.py`) -/

def isUpperAlpha (c : Char) : Bool := decide (65 ≤ c.toNat ∧ c.toNat ≤ 90)

def isDigitCh (c : Char) : Bool := decide (48 ≤ c.toNat ∧ c.toNat ≤ 57)

def isAlnumUpper (c : Char) : Bool := isUpperAlpha c || isDigitCh c

/-- `BIC.branch_code`: `_get_slice(start=8, end=11)`. -/
def bicBranchCode (s : List Char) : List Char := getSlice s 8 (some 11)

/-- `BIC._validate_length`. -/
def bicValidateLength (s : List Char) : Except Err Unit :=
  if s.length = 8 ∨ s.length = 11 then .ok () else .error .invalidLength

/-- `BIC._validate_structure`.  `re.match` against
`[A-Z0-9]{4}[A-Z]{2}[A-Z0-9]{2}(?:[A-Z0-9]{3})?` (ISO 9362) or the
letters-only prefix variant (strict SWIFT) is a prefix match: it succeeds iff
the first eight characters match the mandatory groups. -/
def bicValidateStructure (enforce_swift_compliance : Bool) (s : List Char) : Except Err Unit :=
  match s with
  | c1 :: c2 :: c3 :: c4 :: c5 :: c6 :: c7 :: c8 :: _ =>
    let pfx := if enforce_swift_compliance then isUpperAlpha else isAlnumUpper
    if pfx c1 && pfx c2 && pfx c3 && pfx c4 && isUpperAlpha c5 && isUpperAlpha c6
        && isAlnumUpper c7 && isAlnumUpper c8
    then .ok () else .error .invalidStructure
  | _ => .error .invalidStructure

/-- `BIC._validate_country_code`: the `pycountry` ISO 3166 table is modelled
as the membership predicate `countries`. -/
def bicValidateCountry (countries : List Char → Bool) (s : List Char) : Except Err Unit :=
  if countries (getSlice s 4 (some 6)) then .ok () else .error .invalidCountryCode

/-- `BIC.validate`. -/
def bicValidate (countries : List Char → Bool) (enforce_swift_compliance : Bool)
    (s : List Char) : Except Err Bool :=
  bicValidateLength s >>= fun _ =>
  bicValidateStructure enforce_swift_compliance s >>= fun _ =>
  bicValidateCountry countries s >>= fun _ =>
  .ok true

/-- The `BIC` constructor with default flags: clean, then validate. -/
def mkBIC (countries : List Char → Bool) (s : List Char) : Except Err (List Char) :=
  let v := clean s
  (bicValidate countries false v).map (fun _ => v)

/-- `BIC.is_valid`. -/
def BIC.is_valid (countries : List Char → Bool) (s : List Char) : Except Err Bool :=
  match bicValidate countries false s with
  | .ok b => .ok b
  | .error e => if e.isSchwifty then .ok false else .error e

/-- The stable descending sort key of `candidates_from_bank_code`:
`sorted(..., key=itemgetter("primary"), reverse=True)`. -/
def primDesc (a b : BankEntry) : Prop := b.primary ≤ a.primary

instance : DecidableRel primDesc := fun a b => by
  unfold primDesc; infer_instance

/-- `BIC.candidates_from_bank_code`: all index entries for the key, primary
entries first (stable), falsy `bic` fields dropped, each remaining value run
through the validating `BIC` constructor. -/
def BIC.candidates_from_bank_code (reg : Registry) (countries : List Char → Bool)
    (country_code bank_code : List Char) : Except Err (List (List Char)) :=
  match reg.bank_code (country_code, bank_code) with
  | none => .error .invalidBankCode
  | some entries =>
    let banks := List.insertionSort primDesc entries
    (banks.filter (fun e => !e.bic.isEmpty)).mapM (fun e => mkBIC countries e.bic)

/-- Python string `<=` (lexicographic on code points), as a Bool. -/
def strLe : List Char → List Char → Bool
  | [], _ => true
  | _ :: _, [] => false
  | a :: as, b :: bs =>
    if a.toNat < b.toNat then true else if b.toNat < a.toNat then false else strLe as bs

def strLE (a b : List Char) : Prop := strLe a b = true

instance : DecidableRel strLE := fun a b => by
  unfold strLE; infer_instance

/-- `sorted(l)[-1]` for a list of BIC strings (only used on nonempty lists;
the `[]` default stands for the unreachable `IndexError`). -/
def sortedLastStr (l : List (List Char)) : List Char :=
  ((List.insertionSort strLE l).getLast?).getD []

/-- `BIC.from_bank_code`. -/
def BIC.from_bank_code (reg : Registry) (countries : List Char → Bool)
    (country_code bank_code : List Char) : Except Err (List Char) :=
  match BIC.candidates_from_bank_code reg countries country_code bank_code with
  | .error e => .error e
  | .ok candidates =>
    if 1 < candidates.length then
      let generic_codes := candidates.filter (fun c => (bicBranchCode c).isEmpty)
      if !generic_codes.isEmpty then .ok (sortedLastStr generic_codes)
      else
        let generic_codes2 := candidates.filter (fun c => bicBranchCode c = "XXX".toList)
        if !generic_codes2.isEmpty then .ok (sortedLastStr generic_codes2)
        else
          match candidates with
          | [] => .error .invalidBankCode
          | c :: _ => .ok c
    else
      match candidates with
      | [] => .error .invalidBankCode
      | c :: _ => .ok c

/-! ## Dataset registry index building (`registry.py`) -/

/-- Truthiness filter of `build_index`: `if index_key and all(index_key)`.
Keys are normalized to component lists (a plain-string key is a singleton);
for a Python `str` key this condition is exactly "the string is nonempty",
for a tuple key it is "the tuple is nonempty and has no falsy component". -/
def goodKey (k : List String) : Bool := !k.isEmpty && k.all (fun s => !s.isEmpty)

/-- First-match association-list lookup (Python dict access). -/
def dictGet {κ ν : Type} [DecidableEq κ] (d : List (κ × ν)) (k : κ) : Option ν :=
  (d.find? (fun p => decide (p.1 = k))).map (fun p => p.2)

/-- `defaultdict(list)` append: extend the bucket of `k`, creating it at the
end (insertion order) when absent. -/
def dictAppendList {κ ν : Type} [DecidableEq κ] (d : List (κ × List ν)) (k : κ) (v : ν) :
    List (κ × List ν) :=
  match d with
  | [] => [(k, [v])]
  | (k', vs) :: rest =>
    if k' = k then (k', vs ++ [v]) :: rest else (k', vs) :: dictAppendList rest k v

/-- Python dict assignment: replace in place, or append when absent. -/
def dictPut {κ ν : Type} [DecidableEq κ] (d : List (κ × ν)) (k : κ) (v : ν) : List (κ × ν) :=
  match d with
  | [] => [(k, v)]
  | (k', v') :: rest =>
    if k' = k then (k', v) :: rest else (k', v') :: dictPut rest k v

/-- `registry.build_index` with `accumulate=True`: one-to-many buckets, with
the falsy-key exclusion (`if index_key and all(index_key)`). -/
def build_index_accumulate {α : Type} (base : List α) (pred : α → Bool)
    (keyFn : α → List String) : List (List String × List α) :=
  base.foldl (fun data entry =>
    if pred entry then
      if goodKey (keyFn entry) then dictAppendList data (keyFn entry) entry else data
    else data) []

/-- `registry.build_index` with `accumulate=False`: plain dict assignment,
later entries overwrite earlier ones sharing a key (no falsy-key check in
this branch of the source). -/
def build_index_overwrite {α : Type} (base : List α) (pred : α → Bool)
    (keyFn : α → List String) : List (List String × α) :=
  base.foldl (fun entries entry =>
    if pred entry then dictPut entries (keyFn entry) entry else entries) []

/-! ## Concrete fixtures (used to instantiate the general theorems) -/

/-- A Germany-like country spec: 18-digit BBAN, bank code at `[0, 8)`,
account code at `[8, 18)`, 22-character IBAN. -/
def deSpec : CountrySpec where
  bban_length := 18
  iban_length := 22
  positions := some (fun k =>
    match k with
    | .bank_code => ⟨0, 8⟩
    | .account_code => ⟨8, 18⟩
    | _ => ⟨0, 0⟩)
  regexOk := fun s => decide (s.length = 18) && s.all isDigitCh
  bic_lookup_components := none

/-- A Czech-like country spec: 20-digit BBAN, bank code `[0, 4)`, branch
(account prefix) `[4, 10)`, account code `[10, 20)`, 24-character IBAN. -/
def czSpec : CountrySpec where
  bban_length := 20
  iban_length := 24
  positions := some (fun k =>
    match k with
    | .bank_code => ⟨0, 4⟩
    | .branch_code => ⟨4, 10⟩
    | .account_code => ⟨10, 20⟩
    | _ => ⟨0, 0⟩)
  regexOk := fun s => decide (s.length = 20) && s.all isDigitCh
  bic_lookup_components := none

/-- A United-Kingdom-like country spec: 18-character BBAN, bank code
`[0, 4)`, branch (sort) code `[4, 10)`, account code `[10, 18)`. -/
def gbSpec : CountrySpec where
  bban_length := 18
  iban_length := 22
  positions := some (fun k =>
    match k with
    | .bank_code => ⟨0, 4⟩
    | .branch_code => ⟨4, 10⟩
    | .account_code => ⟨10, 18⟩
    | _ => ⟨0, 0⟩)
  regexOk := fun s => decide (s.length = 18)
    && (s.take 4).all isUpperAlpha && (s.drop 4).all isDigitCh
  bic_lookup_components := none

/-- A registry holding just the fixture specs and no bank directory. -/
def testRegistry : Registry where
  iban := fun cc =>
    if cc = "DE".toList then some deSpec
    else if cc = "CZ".toList then some czSpec
    else if cc = "GB".toList then some gbSpec
    else none
  bank_code := fun _ => none

/-- Directory entries for the BIC-resolution fixture. -/
def bicTestEntries : List BankEntry :=
  [⟨"COMMDEFFXXX".toList, true, none⟩,
   ⟨"COMMDEFF".toList, false, none⟩,
   ⟨"COMMDEFF500".toList, false, none⟩]

/-- A registry exposing one `(country, bank_code)` key with three BICs. -/
def bicRegistry : Registry where
  iban := fun _ => none
  bank_code := fun key =>
    if key = ("DE".toList, "10000000".toList) then some bicTestEntries else none

/-- An ISO 3166 stub accepting every country code. -/
def allCountries : List Char → Bool := fun _ => true

/-- The registration-table keys whose algorithm keeps the inherited
compute-and-compare `validate` (every registered key except CZ/SK and IS). -/
def defaultValidateKeys : List String :=
  ["BE:default", "BT:default", "ME:default", "MK:default", "PT:default", "RS:default",
   "SI:default", "TL:default", "MR:default", "TN:default", "FR:default", "MC:default",
   "EE:default", "FI:default", "IT:default", "SM:default", "NO:default", "PL:default",
   "ES:default"]

/-! ## Lemmas: characters and `clean` -/

theorem toNat_ofNat_valid {n : Nat} (h : n < 55296) : (Char.ofNat n).toNat = n := by
  have hv : n.isValidChar := Or.inl h
  unfold Char.ofNat
  rw [dif_pos hv]
  rfl

theorem pyUpper_toNat (c : Char) :
    (pyUpper c).toNat = if 97 ≤ c.toNat ∧ c.toNat ≤ 122 then c.toNat - 32 else c.toNat := by
  unfold pyUpper
  split
  · next h => exact toNat_ofNat_valid (by omega)
  · rfl

theorem pyUpper_pyUpper (c : Char) : pyUpper (pyUpper c) = pyUpper c := by
  by_cases h : 97 ≤ c.toNat ∧ c.toNat ≤ 122
  · have h1 : (pyUpper c).toNat = c.toNat - 32 := by rw [pyUpper_toNat, if_pos h]
    nth_rewrite 1 [pyUpper]
    rw [if_neg (by omega)]
  · have h2 : pyUpper c = c := by unfold pyUpper; rw [if_neg h]
    rw [h2, h2]

theorem isPySpace_pyUpper (c : Char) : isPySpace (pyUpper c) = isPySpace c := by
  by_cases h : 97 ≤ c.toNat ∧ c.toNat ≤ 122
  · have h1 : (pyUpper c).toNat = c.toNat - 32 := by rw [pyUpper_toNat, if_pos h]
    have h2 : isPySpace (pyUpper c) = false := by simp [isPySpace, h1]; omega
    have h3 : isPySpace c = false := by simp [isPySpace]; omega
    rw [h2, h3]
  · have h2 : pyUpper c = c := by unfold pyUpper; rw [if_neg h]
    rw [h2]

/-- A character that `clean` leaves in place unchanged. -/
def cleanChar (c : Char) : Prop := isPySpace c = false ∧ pyUpper c = c

theorem cleanChar_of_range {c : Char} (h1 : 48 ≤ c.toNat) (h2 : c.toNat ≤ 90) : cleanChar c :=
  ⟨by simp [isPySpace]; omega, by unfold pyUpper; rw [if_neg (by omega)]⟩

theorem clean_append (a b : List Char) : clean (a ++ b) = clean a ++ clean b := by
  simp [clean, List.filter_append]

theorem clean_eq_self : ∀ {s : List Char}, (∀ c ∈ s, cleanChar c) → clean s = s := by
  intro s
  induction s with
  | nil => intro _; rfl
  | cons c t ih =>
    intro h
    have hc := h c (List.mem_cons_self c t)
    have ht : clean t = t := ih (fun x hx => h x (List.mem_cons_of_mem c hx))
    simp only [clean, List.filter_cons, hc.1, Bool.not_false, if_true, List.map_cons, hc.2]
    simpa [clean] using ht

theorem cleanChar_of_mem_clean {s : List Char} {c : Char} (h : c ∈ clean s) : cleanChar c := by
  simp only [clean, List.mem_map, List.mem_filter] at h
  obtain ⟨c', ⟨_, hns⟩, rfl⟩ := h
  refine ⟨?_, pyUpper_pyUpper c'⟩
  rw [isPySpace_pyUpper]
  simpa using hns

theorem clean_idem (s : List Char) : clean (clean s) = clean s :=
  clean_eq_self (fun _ hc => cleanChar_of_mem_clean hc)

theorem clean_replicate_zero (n : Nat) : clean (List.replicate n '0') = List.replicate n '0' :=
  clean_eq_self (fun c hc => by
    rw [List.eq_of_mem_replicate hc]
    exact cleanChar_of_range (by decide) (by decide))

theorem digitChar_toNat {n : Nat} (h : n < 10) : (digitChar n).toNat = 48 + n :=
  toNat_ofNat_valid (by omega)

theorem digitChar_isDigit {n : Nat} (h : n < 10) :
    48 ≤ (digitChar n).toNat ∧ (digitChar n).toNat ≤ 57 := by
  rw [digitChar_toNat h]; omega

theorem natReprAux_digits :
    ∀ (fuel n : Nat), ∀ c ∈ natReprAux fuel n, 48 ≤ c.toNat ∧ c.toNat ≤ 57 := by
  intro fuel
  induction fuel with
  | zero => intro n c hc; simp [natReprAux] at hc
  | succ fuel ih =>
    intro n c hc
    unfold natReprAux at hc
    split at hc
    · next h =>
      rw [List.mem_singleton] at hc
      subst hc
      exact digitChar_isDigit h
    · rw [List.mem_append] at hc
      rcases hc with hc | hc
      · exact ih _ c hc
      · rw [List.mem_singleton] at hc
        subst hc
        exact digitChar_isDigit (Nat.mod_lt _ (by omega))

theorem natRepr_digits {n : Nat} : ∀ c ∈ natRepr n, 48 ≤ c.toNat ∧ c.toNat ≤ 57 :=
  natReprAux_digits (n + 1) n

theorem fmt02_digits {n : Nat} : ∀ c ∈ fmt02 n, 48 ≤ c.toNat ∧ c.toNat ≤ 57 := by
  intro c hc
  unfold fmt02 at hc
  rw [List.mem_append] at hc
  rcases hc with hc | hc
  · rw [List.eq_of_mem_replicate hc]; decide
  · exact natRepr_digits c hc

theorem clean_of_digits {s : List Char} (h : ∀ c ∈ s, 48 ≤ c.toNat ∧ c.toNat ≤ 57) :
    clean s = s :=
  clean_eq_self (fun c hc => cleanChar_of_range (h c hc).1 (by have := (h c hc).2; omega))

theorem natReprAux_ne_nil (fuel n : Nat) (h : 0 < fuel) : natReprAux fuel n ≠ [] := by
  cases fuel with
  | zero => omega
  | succ fuel =>
    unfold natReprAux
    split
    · simp
    · simp

theorem natRepr_ne_nil (n : Nat) : natRepr n ≠ [] := natReprAux_ne_nil _ _ (by omega)

theorem natReprAux_small {fuel m : Nat} (h0 : 0 < fuel) (h : m < 10) :
    natReprAux fuel m = [digitChar m] := by
  cases fuel with
  | zero => omega
  | succ fuel => unfold natReprAux; rw [if_pos h]

theorem natRepr_small {n : Nat} (h : n < 10) : natRepr n = [digitChar n] :=
  natReprAux_small (by omega) h

theorem natRepr_two {n : Nat} (h1 : 10 ≤ n) (h2 : n < 100) :
    natRepr n = [digitChar (n / 10), digitChar (n % 10)] := by
  unfold natRepr natReprAux
  rw [if_neg (by omega)]
  rw [natReprAux_small (by omega) (by omega)]
  rfl

theorem fmt02_length {n : Nat} (h : n < 100) : (fmt02 n).length = 2 := by
  by_cases h1 : n < 10
  · simp [fmt02, natRepr_small h1]
  · simp [fmt02, natRepr_two (by omega) h]

/-! ## Lemmas: `zfill`, slices, and the overlay loop -/

theorem zfill_of_le {s : List Char} {w : Nat} (h : w ≤ s.length) : zfill s w = s := by
  unfold zfill; rw [if_pos h]

theorem zfill_length (s : List Char) (w : Nat) : (zfill s w).length = max s.length w := by
  unfold zfill
  split
  · next h => omega
  · next h =>
    split
    · simp
    · next c rest =>
      simp only [List.length_cons] at h
      split
      · simp only [List.length_cons, List.length_append, List.length_replicate]
        omega
      · simp only [List.length_append, List.length_replicate, List.length_cons]
        omega

theorem zfill_length_of_le {s : List Char} {w : Nat} (h : s.length ≤ w) :
    (zfill s w).length = w := by
  rw [zfill_length]; omega

theorem mem_zfill {s : List Char} {w : Nat} {c : Char} (h : c ∈ zfill s w) :
    c ∈ s ∨ c = '0' := by
  unfold zfill at h
  split at h
  · exact Or.inl h
  · split at h
    · exact Or.inr (List.eq_of_mem_replicate h)
    · split at h
      · rcases List.mem_cons.1 h with h | h
        · exact Or.inl (h ▸ List.mem_cons_self _ _)
        · rw [List.mem_append] at h
          rcases h with h | h
          · exact Or.inr (List.eq_of_mem_replicate h)
          · exact Or.inl (List.mem_cons_of_mem _ h)
      · rw [List.mem_append] at h
        rcases h with h | h
        · exact Or.inr (List.eq_of_mem_replicate h)
        · exact Or.inl h

theorem clean_zfill {s : List Char} {w : Nat} (h : clean s = s) :
    clean (zfill s w) = zfill s w := by
  refine clean_eq_self (fun c hc => ?_)
  rcases mem_zfill hc with hc' | rfl
  · exact cleanChar_of_mem_clean (h ▸ hc')
  · exact cleanChar_of_range (by decide) (by decide)

theorem pySlice_eq_drop_take (l : List Char) (a b : Nat) :
    pySlice l a b = (l.take b).drop a := by
  rw [pySlice, List.drop_take]

theorem write_length {l v : List Char} {s e : Nat} (h1 : s ≤ e) (h2 : e ≤ l.length)
    (h3 : v.length = e - s) : (l.take s ++ v ++ l.drop e).length = l.length := by
  simp only [List.length_append, List.length_take, List.length_drop]
  omega

theorem write_slice_own {l v : List Char} {s e : Nat} (h1 : s ≤ e) (h2 : e ≤ l.length)
    (h3 : v.length = e - s) : pySlice (l.take s ++ v ++ l.drop e) s e = v := by
  unfold pySlice
  have hts : (l.take s).length = s := by rw [List.length_take]; omega
  have hd := List.drop_left (l.take s) (v ++ l.drop e)
  rw [hts] at hd
  rw [List.append_assoc, hd, ← h3]
  exact List.take_left v (l.drop e)

theorem write_slice_before {l v : List Char} {s e a b : Nat} (h1 : s ≤ e) (h2 : e ≤ l.length)
    (hb : b ≤ s) : pySlice (l.take s ++ v ++ l.drop e) a b = pySlice l a b := by
  rw [pySlice_eq_drop_take, pySlice_eq_drop_take]
  have hts : (l.take s).length = s := by rw [List.length_take]; omega
  rw [List.append_assoc, List.take_append_of_le_length (by rw [hts]; omega), List.take_take]
  congr 2
  exact min_eq_left hb

theorem write_slice_after {l v : List Char} {s e a b : Nat} (h1 : s ≤ e) (h2 : e ≤ l.length)
    (h3 : v.length = e - s) (ha : e ≤ a) :
    pySlice (l.take s ++ v ++ l.drop e) a b = pySlice l a b := by
  unfold pySlice
  have hpre : (l.take s ++ v).length = e := by
    simp only [List.length_append, List.length_take]; omega
  rw [List.drop_append_eq_append_drop, List.drop_eq_nil_of_le (by rw [hpre]; omega)]
  rw [List.nil_append, hpre, List.drop_drop]
  congr 2
  omega

theorem write_id {l v : List Char} {s e : Nat} (h1 : s = e) (h2 : v = []) :
    l.take s ++ v ++ l.drop e = l := by
  subst h1; subst h2
  rw [List.append_nil, List.take_append_drop]

/-- Length preservation for a run of overlay writes. -/
theorem overlayFold_length (ranges : Component → Range) (comps : Component → List Char) :
    ∀ (ks : List Component) (init : List Char),
    (∀ k ∈ ks, (ranges k).isEmpty = true ∨
      ((ranges k).start ≤ (ranges k).stop ∧ (ranges k).stop ≤ init.length ∧
        (comps k).length = (ranges k).length)) →
    (ks.foldl (overlayStep ranges comps) init).length = init.length := by
  intro ks
  induction ks with
  | nil => intro init _; rfl
  | cons k t ih =>
    intro init h
    have hk := h k (List.mem_cons_self k t)
    have hstep : (overlayStep ranges comps init k).length = init.length := by
      unfold overlayStep
      rcases hk with hk | ⟨ha, hb, hc⟩
      · rw [if_pos hk]
      · split
        · rfl
        · exact write_length ha hb (by rw [hc]; rfl)
    rw [List.foldl_cons]
    rw [ih (overlayStep ranges comps init k)
      (fun k' hk' => by rw [hstep]; exact h k' (List.mem_cons_of_mem k hk'))]
    exact hstep

/-- A run of overlay writes that each stay clear of `[a, b)` leaves the slice
`[a, b)` unchanged. -/
theorem overlayFold_slice_preserved (ranges : Component → Range) (comps : Component → List Char)
    {a b : Nat} :
    ∀ (ks : List Component) (init : List Char),
    (∀ k ∈ ks, (ranges k).isEmpty = true ∨
      ((ranges k).start ≤ (ranges k).stop ∧ (ranges k).stop ≤ init.length ∧
        (comps k).length = (ranges k).length ∧
        (b ≤ (ranges k).start ∨ (ranges k).stop ≤ a ∨ (ranges k).length = 0))) →
    pySlice (ks.foldl (overlayStep ranges comps) init) a b = pySlice init a b := by
  intro ks
  induction ks with
  | nil => intro init _; rfl
  | cons k t ih =>
    intro init h
    have hk := h k (List.mem_cons_self k t)
    have hlen : (overlayStep ranges comps init k).length = init.length := by
      unfold overlayStep
      rcases hk with hk | ⟨h1, h2, h3, _⟩
      · rw [if_pos hk]
      · split
        · rfl
        · exact write_length h1 h2 (by rw [h3]; rfl)
    have hstep : pySlice (overlayStep ranges comps init k) a b = pySlice init a b := by
      unfold overlayStep
      rcases hk with hk | ⟨h1, h2, h3, hd⟩
      · rw [if_pos hk]
      · split
        · rfl
        · rcases hd with hd | hd | hd
          · exact write_slice_before h1 h2 hd
          · exact write_slice_after h1 h2 (by rw [h3]; rfl) hd
          · rw [write_id (by unfold Range.length at hd; omega)
              (List.length_eq_zero.1 (by rw [h3]; exact hd))]
    rw [List.foldl_cons,
      ih (overlayStep ranges comps init k)
        (fun k' hk' => by rw [hlen]; exact h k' (List.mem_cons_of_mem k hk')),
      hstep]

theorem getSlice_eq_pySlice {s : List Char} {a b : Nat} (h1 : a < s.length)
    (h2 : b ≤ s.length) : getSlice s a (some b) = pySlice s a b := by
  unfold getSlice
  rw [if_pos]
  simp [h1, h2]

/-! ## Lemmas: lexicographic order and `sorted(...)[-1]` -/

theorem strLe_refl (a : List Char) : strLe a a = true := by
  induction a with
  | nil => rfl
  | cons c t ih => unfold strLe; rw [if_neg (by omega), if_neg (by omega)]; exact ih

theorem strLe_total (a b : List Char) : strLe a b = true ∨ strLe b a = true := by
  induction a generalizing b with
  | nil => exact Or.inl rfl
  | cons c t ih =>
    cases b with
    | nil => exact Or.inr rfl
    | cons c' t' =>
      unfold strLe
      by_cases h1 : c.toNat < c'.toNat
      · left; rw [if_pos h1]
      · by_cases h2 : c'.toNat < c.toNat
        · right; rw [if_pos h2]
        · rw [if_neg h1, if_neg h2, if_neg h2, if_neg h1]
          exact ih t'

theorem strLe_trans {a b c : List Char} (hab : strLe a b = true) (hbc : strLe b c = true) :
    strLe a c = true := by
  induction a generalizing b c with
  | nil => rfl
  | cons x t ih =>
    cases b with
    | nil => simp [strLe] at hab
    | cons y u =>
      cases c with
      | nil => simp [strLe] at hbc
      | cons z v =>
        unfold strLe at hab hbc ⊢
        by_cases h1 : x.toNat < y.toNat
        · by_cases h2 : y.toNat < z.toNat
          · rw [if_pos (by omega)]
          · rw [if_neg h2] at hbc
            split at hbc
            · exact absurd hbc (by simp)
            · next h3 => rw [if_pos (by omega)]
        · rw [if_neg h1] at hab
          split at hab
          · exact absurd hab (by simp)
          · next h2 =>
            by_cases h3 : y.toNat < z.toNat
            · rw [if_pos (by omega)]
            · rw [if_neg h3] at hbc
              split at hbc
              · exact absurd hbc (by simp)
              · next h4 =>
                rw [if_neg (by omega), if_neg (by omega)]
                exact ih hab hbc

instance : IsTotal (List Char) strLE :=
  ⟨fun a b => by unfold strLE; exact strLe_total a b⟩

instance : IsTrans (List Char) strLE :=
  ⟨fun _ _ _ hab hbc => strLe_trans hab hbc⟩

theorem sorted_getLast_max {l : List (List Char)} (h : l.Sorted strLE) (hne : l ≠ []) :
    ∀ x ∈ l, strLE x (l.getLast hne) := by
  induction l with
  | nil => intro x hx; exact absurd hx (by simp)
  | cons a t ih =>
    intro x hx
    cases t with
    | nil =>
      rw [List.mem_singleton] at hx
      subst hx
      exact strLe_refl x
    | cons b u =>
      rw [List.getLast_cons (by simp)]
      rcases List.mem_cons.1 hx with rfl | hx
      · exact (List.pairwise_cons.1 h).1 _ (List.getLast_mem _)
      · exact ih h.of_cons (by simp) x hx

theorem sortedLastStr_spec {l : List (List Char)} (hne : l ≠ []) :
    sortedLastStr l ∈ l ∧ ∀ x ∈ l, strLE x (sortedLastStr l) := by
  have hperm := List.perm_insertionSort strLE l
  have hsne : List.insertionSort strLE l ≠ [] := by
    intro hc
    exact hne (List.Perm.eq_nil (hc ▸ hperm).symm)
  have hlast : sortedLastStr l = (List.insertionSort strLE l).getLast hsne := by
    unfold sortedLastStr
    rw [List.getLast?_eq_getLast _ hsne]
    rfl
  constructor
  · rw [hlast]
    exact hperm.mem_iff.1 (List.getLast_mem hsne)
  · intro x hx
    rw [hlast]
    exact sorted_getLast_max (List.sorted_insertionSort strLE l) hsne x (hperm.mem_iff.2 hx)

/-! ## Lemmas: dictionaries and `build_index` -/

theorem dictGet_cons {κ ν : Type} [DecidableEq κ] (k' : κ) (v : ν) (d : List (κ × ν)) (k : κ) :
    dictGet ((k', v) :: d) k = if k' = k then some v else dictGet d k := by
  unfold dictGet
  rw [List.find?_cons]
  by_cases h : k' = k
  · simp [h]
  · simp [h]

theorem dictGet_dictAppendList {κ ν : Type} [DecidableEq κ] (d : List (κ × List ν)) (k k' : κ)
    (v : ν) :
    dictGet (dictAppendList d k v) k' =
      if k = k' then some ((dictGet d k').getD [] ++ [v]) else dictGet d k' := by
  induction d with
  | nil =>
    unfold dictAppendList
    rw [dictGet_cons]
    by_cases h : k = k'
    · simp [h, dictGet]
    · simp [h, dictGet]
  | cons p rest ih =>
    obtain ⟨k0, vs⟩ := p
    unfold dictAppendList
    by_cases h0 : k0 = k
    · rw [if_pos h0, dictGet_cons, dictGet_cons]
      by_cases h1 : k0 = k'
      · rw [if_pos h1, if_pos (h0 ▸ h1), if_pos h1]
        simp
      · rw [if_neg h1, if_neg (fun hc => h1 (h0.trans hc)), if_neg h1]
    · rw [if_neg h0, dictGet_cons, dictGet_cons, ih]
      by_cases h1 : k0 = k'
      · rw [if_pos h1, if_pos h1, if_neg (fun hc => h0 (h1.trans hc.symm))]
      · rw [if_neg h1, if_neg h1]

theorem dictGet_dictPut {κ ν : Type} [DecidableEq κ] (d : List (κ × ν)) (k k' : κ) (v : ν) :
    dictGet (dictPut d k v) k' = if k = k' then some v else dictGet d k' := by
  induction d with
  | nil =>
    unfold dictPut
    rw [dictGet_cons]
  | cons p rest ih =>
    obtain ⟨k0, v0⟩ := p
    unfold dictPut
    by_cases h0 : k0 = k
    · rw [if_pos h0, dictGet_cons, dictGet_cons]
      by_cases h1 : k0 = k'
      · rw [if_pos h1, if_pos (h0 ▸ h1)]
      · rw [if_neg h1, if_neg (fun hc => h1 (h0.trans hc)), if_neg h1]
    · rw [if_neg h0, dictGet_cons, dictGet_cons, ih]
      by_cases h1 : k0 = k'
      · rw [if_pos h1, if_pos h1, if_neg (fun hc => h0 (h1.trans hc.symm))]
      · rw [if_neg h1, if_neg h1]

theorem build_index_accumulate_go {α : Type} (pred : α → Bool) (keyFn : α → List String)
    (k : List String) :
    ∀ (base : List α) (d : List (List String × List α)),
    dictGet (base.foldl (fun data entry =>
        if pred entry then
          if goodKey (keyFn entry) then dictAppendList data (keyFn entry) entry else data
        else data) d) k =
      (if (base.filter (fun e => pred e && goodKey (keyFn e) && decide (keyFn e = k))).isEmpty
       then dictGet d k
       else some ((dictGet d k).getD [] ++
         base.filter (fun e => pred e && goodKey (keyFn e) && decide (keyFn e = k)))) := by
  intro base
  induction base with
  | nil => intro d; simp
  | cons e rest ih =>
    intro d
    rw [List.foldl_cons]
    by_cases hp : pred e
    · by_cases hg : goodKey (keyFn e)
      · by_cases hk : keyFn e = k
        · have hf : (e :: rest).filter (fun x => pred x && goodKey (keyFn x) && decide (keyFn x = k))
              = e :: rest.filter (fun x => pred x && goodKey (keyFn x) && decide (keyFn x = k)) := by
            rw [List.filter_cons, if_pos (by rw [hp, hg]; simp [hk])]
          have hd := dictGet_dictAppendList d (keyFn e) k e
          rw [if_pos hk] at hd
          rw [if_pos hp, if_pos hg, ih, hd, hf, List.isEmpty_cons]
          simp only [Bool.false_eq_true, if_false]
          by_cases hemp :
              (rest.filter (fun x => pred x && goodKey (keyFn x) && decide (keyFn x = k))).isEmpty = true
          · rw [if_pos hemp]
            rw [List.isEmpty_iff] at hemp
            rw [hemp]
          · rw [if_neg hemp]
            simp
        · have hf : (e :: rest).filter (fun x => pred x && goodKey (keyFn x) && decide (keyFn x = k))
              = rest.filter (fun x => pred x && goodKey (keyFn x) && decide (keyFn x = k)) := by
            rw [List.filter_cons, if_neg (by simp [hk])]
          have hd := dictGet_dictAppendList d (keyFn e) k e
          rw [if_neg hk] at hd
          rw [hf, if_pos hp, if_pos hg, ih, hd]
      · have hf : (e :: rest).filter (fun x => pred x && goodKey (keyFn x) && decide (keyFn x = k))
            = rest.filter (fun x => pred x && goodKey (keyFn x) && decide (keyFn x = k)) := by
          rw [List.filter_cons, if_neg (by simp [hg])]
        rw [hf, if_pos hp, if_neg hg, ih]
    · have hf : (e :: rest).filter (fun x => pred x && goodKey (keyFn x) && decide (keyFn x = k))
          = rest.filter (fun x => pred x && goodKey (keyFn x) && decide (keyFn x = k)) := by
        rw [List.filter_cons, if_neg (by simp [hp])]
      rw [hf, if_neg hp, ih]

theorem build_index_overwrite_go {α : Type} (pred : α → Bool) (keyFn : α → List String)
    (k : List String) :
    ∀ (base : List α) (d : List (List String × α)),
    dictGet (base.foldl (fun entries entry =>
        if pred entry then dictPut entries (keyFn entry) entry else entries) d) k =
      (match (base.filter (fun e => pred e && decide (keyFn e = k))).getLast? with
       | some e => some e
       | none => dictGet d k) := by
  intro base
  induction base with
  | nil => intro d; simp
  | cons e rest ih =>
    intro d
    rw [List.foldl_cons]
    by_cases hp : pred e
    · by_cases hk : keyFn e = k
      · have hf : (e :: rest).filter (fun x => pred x && decide (keyFn x = k))
            = e :: rest.filter (fun x => pred x && decide (keyFn x = k)) := by
          rw [List.filter_cons, if_pos (by simp [hp, hk])]
        have hd := dictGet_dictPut d (keyFn e) k e
        rw [if_pos hk] at hd
        rw [hf, if_pos hp, ih, hd]
        rcases hlast : (rest.filter (fun x => pred x && decide (keyFn x = k))).getLast? with _ | y
        · have hemp : rest.filter (fun x => pred x && decide (keyFn x = k)) = [] := by
            rwa [List.getLast?_eq_none_iff] at hlast
          rw [hemp]
          rfl
        · have hne : rest.filter (fun x => pred x && decide (keyFn x = k)) ≠ [] := by
            intro hc
            rw [hc] at hlast
            exact absurd hlast (by simp)
          rcases List.exists_cons_of_ne_nil hne with ⟨z, zs, hzs⟩
          rw [hzs]
          rw [hzs] at hlast
          rw [List.getLast?_cons_cons, hlast]
      · have hf : (e :: rest).filter (fun x => pred x && decide (keyFn x = k))
            = rest.filter (fun x => pred x && decide (keyFn x = k)) := by
          rw [List.filter_cons, if_neg (by simp [hk])]
        have hd := dictGet_dictPut d (keyFn e) k e
        rw [if_neg hk] at hd
        rw [hf, if_pos hp, ih, hd]
    · have hf : (e :: rest).filter (fun x => pred x && decide (keyFn x = k))
          = rest.filter (fun x => pred x && decide (keyFn x = k)) := by
        rw [List.filter_cons, if_neg (by simp [hp])]
      rw [hf, if_neg hp, ih]

/-- `build_index(accumulate=True)` read back: the bucket of `k` holds exactly
the matching entries with a truthy key equal to `k`, in source order. -/
theorem build_index_accumulate_get {α : Type} (base : List α) (pred : α → Bool)
    (keyFn : α → List String) (k : List String) :
    dictGet (build_index_accumulate base pred keyFn) k =
      (if (base.filter (fun e => pred e && goodKey (keyFn e) && decide (keyFn e = k))).isEmpty
       then none
       else some (base.filter (fun e => pred e && goodKey (keyFn e) && decide (keyFn e = k)))) := by
  unfold build_index_accumulate
  rw [build_index_accumulate_go]
  rfl

/-- `build_index(accumulate=False)` read back: the entry at `k` is the last
matching entry whose key equals `k`, with no truthy-key filtering. -/
theorem build_index_overwrite_get {α : Type} (base : List α) (pred : α → Bool)
    (keyFn : α → List String) (k : List String) :
    dictGet (build_index_overwrite base pred keyFn) k =
      (base.filter (fun e => pred e && decide (keyFn e = k))).getLast? := by
  unfold build_index_overwrite
  rw [build_index_overwrite_go]
  rcases h : (base.filter (fun e => pred e && decide (keyFn e = k))).getLast? with _ | e
  · rfl
  · rfl

/-! ## Lemmas: `from_components` -/

theorem paddedComponents_length_of_le {values : Component → Option (List Char)}
    {ranges : Component → Range} {k : Component}
    (h : (clean ((values k).getD [])).length ≤ (ranges k).length) :
    (paddedComponents values ranges k).length = (ranges k).length :=
  zfill_length_of_le h

theorem splitBankCode_eq {values : Component → Option (List Char)} {ranges : Component → Range}
    (hbank : (clean ((values .bank_code).getD [])).length ≤ (ranges .bank_code).length)
    (hbranch : (clean ((values .branch_code).getD [])).length ≤ (ranges .branch_code).length) :
    splitBankCode ranges (paddedComponents values ranges) = paddedComponents values ranges := by
  have hlb : (paddedComponents values ranges .bank_code).length = (ranges .bank_code).length :=
    paddedComponents_length_of_le hbank
  unfold splitBankCode
  split
  · next hsplit =>
    have hbr0 : (ranges .branch_code).length = 0 := by omega
    have hbrnil : paddedComponents values ranges .branch_code = [] := by
      have h1 : clean ((values .branch_code).getD []) = [] :=
        List.length_eq_zero.1 (by omega)
      unfold paddedComponents
      rw [h1, hbr0]
      rfl
    funext k
    match k with
    | .branch_code =>
      rw [hbrnil]
      show pySlice _ (ranges Component.bank_code).length
        ((ranges Component.bank_code).length + (ranges Component.branch_code).length) = []
      rw [hbr0]
      unfold pySlice
      simp
    | .bank_code =>
      exact List.take_of_length_le (by omega)
    | .account_id => rfl
    | .account_type => rfl
    | .account_code => rfl
    | .account_holder_id => rfl
    | .currency_code => rfl
    | .national_checksum_digits => rfl
  · rfl

/-- Under in-width inputs, `from_components` reduces to: pad, compute the
national checksum, splice, overlay. -/
theorem from_components_eq {reg : Registry} {country_code : List Char}
    {values : Component → Option (List Char)} {spec : CountrySpec}
    {ranges : Component → Range}
    (hspec : reg.iban country_code = some spec) (hpos : spec.positions = some ranges)
    (hin : ∀ k, (clean ((values k).getD [])).length ≤ (ranges k).length) :
    BBAN.from_components reg country_code values =
      (match compute_national_checksum country_code (paddedComponents values ranges) with
       | .error e => .error e
       | .ok checksum =>
         .ok (mkBBAN country_code
           (overlay ranges (spliceChecksum (paddedComponents values ranges) checksum)
             (List.replicate spec.bban_length '0')))) := by
  unfold BBAN.from_components getBbanSpec
  simp only [hspec]
  simp only [hpos]
  rw [splitBankCode_eq (hin .bank_code) (hin .branch_code)]
  rw [if_neg (by rw [paddedComponents_length_of_le (hin .bank_code)]; omega)]
  rw [if_neg (by rw [paddedComponents_length_of_le (hin .branch_code)]; omega)]
  rw [if_neg (by rw [paddedComponents_length_of_le (hin .account_code)]; omega)]

/-- Every algorithm reachable through the registration table. -/
theorem algorithms_mem {key : String} {a : Algorithm} (h : algorithms key = some a) :
    a = belgiumAlgorithm ∨ a = ISO7064_mod97_10 ∨ a = iso7064VariantAlgorithm
    ∨ a = franceAlgorithm ∨ a = czechAlgorithm ∨ a = estoniaAlgorithm
    ∨ a = finlandAlgorithm ∨ a = icelandAlgorithm ∨ a = italyAlgorithm
    ∨ a = norwayAlgorithm ∨ a = polandAlgorithm ∨ a = spainAlgorithm := by
  unfold algorithms at h
  rcases hf : algorithmsList.find? (fun p => decide (p.1 = key)) with _ | p
  · rw [hf] at h
    exact absurd h (by simp)
  · rw [hf] at h
    simp only [Option.map] at h
    injection h with h
    have hmem := List.mem_of_find?_eq_some hf
    rw [← h]
    revert hmem
    unfold algorithmsList
    intro hmem
    simp only [List.mem_cons, List.not_mem_nil, or_false] at hmem
    rcases hmem with rfl | rfl | rfl | rfl | rfl | rfl | rfl | rfl | rfl | rfl | rfl | rfl | rfl
      | rfl | rfl | rfl | rfl | rfl | rfl | rfl | rfl | rfl <;> tauto

theorem cleanChar_of_digit {c : Char} (h : 48 ≤ c.toNat ∧ c.toNat ≤ 57) : cleanChar c :=
  cleanChar_of_range h.1 (by omega)

theorem fmt02_cleanChar {n : Nat} : ∀ c ∈ fmt02 n, cleanChar c :=
  fun c hc => cleanChar_of_digit (fmt02_digits c hc)

theorem natRepr_cleanChar {n : Nat} : ∀ c ∈ natRepr n, cleanChar c :=
  fun c hc => cleanChar_of_digit (natRepr_digits c hc)

/-- Any nonempty national checksum consists of clean characters (digits, or
an uppercase letter for IT/SM). -/
theorem compute_national_checksum_cleanChar {cc : List Char} {comps : Component → List Char}
    {cs : List Char} (h : compute_national_checksum cc comps = .ok cs) :
    ∀ c ∈ cs, cleanChar c := by
  unfold compute_national_checksum at h
  split at h
  · injection h with h
    subst h
    intro c hc
    exact absurd hc (by simp)
  · next a ha =>
    rcases algorithms_mem ha with rfl | rfl | rfl | rfl | rfl | rfl | rfl | rfl | rfl | rfl | rfl | rfl
    · -- Belgium
      unfold belgiumAlgorithm at h
      dsimp only at h
      unfold belgiumCompute at h
      rcases hm : iso7064Pre (defaultAccepts.map comps) with e | n
      · rw [hm] at h; exact absurd h (by simp [Except.map])
      · rw [hm] at h
        simp only [Except.map] at h
        injection h with h
        subst h
        exact fmt02_cleanChar
    · -- default ISO 7064
      unfold ISO7064_mod97_10 at h
      dsimp only at h
      unfold iso7064DefaultCompute at h
      rcases hm : iso7064Pre (defaultAccepts.map comps) with e | n
      · rw [hm] at h; exact absurd h (by simp [Except.map])
      · rw [hm] at h
        simp only [Except.map] at h
        injection h with h
        subst h
        exact fmt02_cleanChar
    · -- ISO 7064 variant
      unfold iso7064VariantAlgorithm at h
      dsimp only at h
      unfold iso7064VariantCompute at h
      rcases hm : iso7064Pre (defaultAccepts.map comps) with e | n
      · rw [hm] at h; exact absurd h (by simp [Except.map])
      · rw [hm] at h
        simp only [Except.map] at h
        injection h with h
        subst h
        exact fmt02_cleanChar
    · -- France
      unfold franceAlgorithm at h
      dsimp only at h
      unfold franceCompute at h
      split at h
      · simp only [bind, Except.bind] at h
        rcases hb : franceNumerify _ with e | nb
        · rw [hb] at h; exact absurd h (by simp)
        · rw [hb] at h
          rcases hr : franceNumerify _ with e | nr
          · rw [hr] at h; exact absurd h (by simp)
          · rw [hr] at h
            rcases hac : franceNumerify _ with e | na
            · rw [hac] at h; exact absurd h (by simp)
            · rw [hac] at h
              injection h with h
              subst h
              exact fmt02_cleanChar
      · exact absurd h (by simp)
    · -- Czech Republic / Slovakia
      unfold czechAlgorithm at h
      dsimp only at h
      unfold czechCompute at h
      injection h with h
      subst h
      intro c hc
      exact absurd hc (by simp)
    · -- Estonia
      unfold estoniaAlgorithm at h
      dsimp only at h
      unfold estoniaCompute at h
      simp only [bind, Except.bind] at h
      rcases hw : weighted _ 10 _ with e | w
      · rw [hw] at h; exact absurd h (by simp)
      · rw [hw] at h
        injection h with h
        subst h
        intro c hc
        rw [List.mem_singleton] at hc
        subst hc
        refine cleanChar_of_digit (digitChar_isDigit ?_)
        have : w < 10 := by
          unfold weighted at hw
          split at hw
          · exact absurd hw (by simp)
          · injection hw with hw; omega
        split <;> omega
    · -- Finland
      unfold finlandAlgorithm at h
      dsimp only at h
      unfold finlandCompute luhn at h
      split at h
      · exact absurd h (by simp)
      · injection h with h
        subst h
        intro c hc
        rw [List.mem_singleton] at hc
        subst hc
        exact cleanChar_of_digit (digitChar_isDigit (by omega))
    · -- Iceland
      unfold icelandAlgorithm at h
      dsimp only at h
      unfold icelandCompute at h
      split at h
      · simp only [bind, Except.bind] at h
        rcases hw : weighted _ 11 _ with e | w
        · rw [hw] at h; exact absurd h (by simp)
        · rw [hw] at h
          injection h with h
          subst h
          split
          · exact natRepr_cleanChar
          · exact natRepr_cleanChar
      · exact absurd h (by simp)
    · -- Italy / San Marino
      unfold italyAlgorithm at h
      dsimp only at h
      unfold italyCompute at h
      split at h
      · exact absurd h (by simp)
      · next terms hterms =>
        injection h with h
        subst h
        intro c hc
        rw [List.mem_singleton] at hc
        subst hc
        have hlt : terms.sum % 26 < 26 := Nat.mod_lt _ (by omega)
        refine cleanChar_of_range ?_ ?_ <;> rw [toNat_ofNat_valid (by omega)] <;> omega
    · -- Norway
      unfold norwayAlgorithm at h
      dsimp only at h
      unfold norwayCompute at h
      split at h
      · split at h
        · exact absurd h (by simp)
        · split at h
          · exact absurd h (by simp)
          · injection h with h
            subst h
            exact natRepr_cleanChar
      · exact absurd h (by simp)

    · -- Poland
      unfold polandAlgorithm at h
      dsimp only at h
      unfold polandCompute at h
      simp only [bind, Except.bind] at h
      rcases hw : weighted _ 10 _ with e | w
      · rw [hw] at h; exact absurd h (by simp)
      · rw [hw] at h
        injection h with h
        subst h
        intro c hc
        rw [List.mem_singleton] at hc
        subst hc
        refine cleanChar_of_digit (digitChar_isDigit ?_)
        have : w < 10 := by
          unfold weighted at hw
          split at hw
          · exact absurd hw (by simp)
          · injection hw with hw; omega
        split <;> omega
    · -- Spain
      unfold spainAlgorithm at h
      dsimp only at h
      unfold spainCompute at h
      split at h
      · simp only [bind, Except.bind] at h
        rcases h1 : weighted _ 11 _ with e | w1
        · rw [h1] at h; exact absurd h (by simp)
        · rw [h1] at h
          rcases h2 : weighted _ 11 _ with e | w2
          · rw [h2] at h; exact absurd h (by simp)
          · rw [h2] at h
            injection h with h
            subst h
            intro c hc
            rw [List.mem_append] at hc
            rcases hc with hc | hc
            · exact natRepr_cleanChar c hc
            · exact natRepr_cleanChar c hc
      · exact absurd h (by simp)

/-- Characters of an overlay result, given a property of the initial buffer
and of every written component value. -/
theorem overlayFold_mem {ranges : Component → Range} {comps : Component → List Char}
    (P : Char → Prop) :
    ∀ (ks : List Component) (init : List Char), (∀ c ∈ init, P c) →
    (∀ k ∈ ks, ∀ c ∈ comps k, P c) →
    ∀ c ∈ ks.foldl (overlayStep ranges comps) init, P c := by
  intro ks
  induction ks with
  | nil => intro init hi _ c hc; exact hi c hc
  | cons k t ih =>
    intro init hi hk c hc
    rw [List.foldl_cons] at hc
    refine ih (overlayStep ranges comps init k) ?_
      (fun k' hk' => hk k' (List.mem_cons_of_mem k hk')) c hc
    intro c' hc'
    unfold overlayStep at hc'
    split at hc'
    · exact hi c' hc'
    · rw [List.mem_append, List.mem_append] at hc'
      rcases hc' with (hc' | hc') | hc'
      · exact hi c' (List.take_subset _ _ hc')
      · exact hk k (List.mem_cons_self k t) c' hc'
      · exact hi c' (List.drop_subset _ _ hc')

/-- Reading back the slice of a component that the overlay wrote, when every
later write stays clear of its range. -/
theorem overlay_slice_written {ranges : Component → Range} {comps : Component → List Char}
    {init : List Char} {pre post : List Component} {k0 : Component}
    (hsplit : Component.all = pre ++ k0 :: post)
    (hlenpre : ∀ k ∈ pre, (ranges k).isEmpty = true ∨
      ((ranges k).start ≤ (ranges k).stop ∧ (ranges k).stop ≤ init.length ∧
        (comps k).length = (ranges k).length))
    (hk0e : (ranges k0).isEmpty = false)
    (hk0a : (ranges k0).start ≤ (ranges k0).stop)
    (hk0b : (ranges k0).stop ≤ init.length)
    (hk0c : (comps k0).length = (ranges k0).length)
    (hpost : ∀ k ∈ post, (ranges k).isEmpty = true ∨
      ((ranges k).start ≤ (ranges k).stop ∧ (ranges k).stop ≤ init.length ∧
        (comps k).length = (ranges k).length ∧
        ((ranges k0).stop ≤ (ranges k).start ∨ (ranges k).stop ≤ (ranges k0).start ∨
          (ranges k).length = 0))) :
    pySlice (overlay ranges comps init) (ranges k0).start (ranges k0).stop = comps k0 := by
  unfold overlay
  rw [hsplit, List.foldl_append, List.foldl_cons]
  have hmidlen : (pre.foldl (overlayStep ranges comps) init).length = init.length :=
    overlayFold_length ranges comps pre init hlenpre
  have hstep : overlayStep ranges comps (pre.foldl (overlayStep ranges comps) init) k0 =
      (pre.foldl (overlayStep ranges comps) init).take (ranges k0).start ++ comps k0 ++
        (pre.foldl (overlayStep ranges comps) init).drop (ranges k0).stop := by
    unfold overlayStep
    rw [if_neg (by rw [hk0e]; simp)]
  have hsteplen :
      (overlayStep ranges comps (pre.foldl (overlayStep ranges comps) init) k0).length =
        init.length := by
    rw [hstep, write_length hk0a (by omega) (by rw [hk0c]; rfl)]
    exact hmidlen
  rw [overlayFold_slice_preserved ranges comps post _ (fun k hk => by
    rcases hpost k hk with hh | ⟨h1, h2, h3, h4⟩
    · exact Or.inl hh
    · exact Or.inr ⟨h1, by omega, h3, by tauto⟩)]
  rw [hstep]
  exact write_slice_own hk0a (by omega) (by rw [hk0c]; rfl)

/-! ## Helper lemmas for the claim theorems -/

theorem defaultValidate_self {f : List (List Char) → Except Err (List Char)}
    {comps : List (List Char)} {cs : List Char} (h : f comps = .ok cs) :
    defaultValidate f comps cs = .ok true := by
  unfold defaultValidate
  rw [h]
  simp [Except.map]

theorem validate_of_compute {a : Algorithm}
    (hv : a.validate = defaultValidate a.compute) {comps : List (List Char)} {cs : List Char}
    (h : a.compute comps = .ok cs) : a.validate comps cs = .ok true := by
  rw [hv]
  exact defaultValidate_self h

theorem iban_is_valid_of_error {reg : Registry} {i : IBAN} {e : Err}
    (h : i.validate reg false = .error e) (hs : e.isSchwifty = true) :
    IBAN.is_valid reg i = .ok false := by
  unfold IBAN.is_valid
  simp only [h, hs]
  rfl

theorem bic_is_valid_of_error {countries : List Char → Bool} {s : List Char} {e : Err}
    (h : bicValidate countries false s = .error e) (hs : e.isSchwifty = true) :
    BIC.is_valid countries s = .ok false := by
  unfold BIC.is_valid
  simp only [h, hs]
  rfl

/-! ## Claim theorems -/

/-- C4 (counterexample): the Czech Republic/Slovakia algorithm refutes
checksum idempotence as literally claimed: it is registered, its `compute`
returns the empty string, and `validate(components, compute(components))`
is `False` for the in-alphabet components `["1", "1"]`. -/
theorem claim_C4_counterexample :
    algorithms "CZ:default" = some czechAlgorithm
    ∧ czechAlgorithm.compute [['1'], ['1']] = .ok []
    ∧ czechAlgorithm.validate [['1'], ['1']] [] = .ok false :=
  ⟨rfl, rfl, by decide⟩

/-- C4 (amended): for every registered algorithm that keeps the inherited
compute-and-compare `validate` (every registered key except CZ/SK and IS),
and any components on which `compute` succeeds,
`validate(components, compute(components))` returns `True`.  The algorithms
that override `validate` directly (CZ/SK, Iceland) check a property of the
components themselves and do not satisfy idempotence. -/
theorem claim_C4 :
    ∀ (key : String) (a : Algorithm), key ∈ defaultValidateKeys → algorithms key = some a →
    ∀ (components : List (List Char)) (cs : List Char),
      a.compute components = .ok cs → a.validate components cs = .ok true := by
  intro key a hmem hka comps cs hcomp
  simp only [defaultValidateKeys, List.mem_cons, List.not_mem_nil, or_false] at hmem
  rcases hmem with rfl | rfl | rfl | rfl | rfl | rfl | rfl | rfl | rfl | rfl | rfl | rfl | rfl
    | rfl | rfl | rfl | rfl | rfl | rfl <;>
    (injection hka with hka; subst hka; exact validate_of_compute rfl hcomp)

/-- C4 witness: the Belgium algorithm at components `["1", "1", "1"]`. -/
theorem claim_C4_witness :
    belgiumAlgorithm.validate [['1'], ['1'], ['1']] ['1', '4'] = .ok true :=
  claim_C4 "BE:default" belgiumAlgorithm (by decide) rfl [['1'], ['1'], ['1']] ['1', '4']
    (by decide)

/-- C6 (counterexample): with `accumulate=False` an entry whose computed key
has a falsy (empty) component is *not* excluded from the index, contradicting
the claim that such entries are excluded in both modes. -/
theorem claim_C6_counterexample :
    dictGet (build_index_overwrite [(0 : Nat)] (fun _ => true) (fun _ => [""])) [""] = some 0 :=
  rfl

/-- C6 (amended): with `accumulate=true` the index maps each key to the list
of all matching entries in source order, excluding entries whose computed key
is falsy or has a falsy component; with `accumulate=false` later entries in
source order replace earlier entries sharing a key (last wins), and the
falsy-key exclusion does *not* apply in this mode. -/
theorem claim_C6 {α : Type} (base : List α) (pred : α → Bool) (keyFn : α → List String)
    (k : List String) :
    (dictGet (build_index_accumulate base pred keyFn) k =
      (if (base.filter (fun e => pred e && goodKey (keyFn e) && decide (keyFn e = k))).isEmpty
       then none
       else some (base.filter (fun e => pred e && goodKey (keyFn e) && decide (keyFn e = k)))))
    ∧ dictGet (build_index_overwrite base pred keyFn) k =
        (base.filter (fun e => pred e && decide (keyFn e = k))).getLast? :=
  ⟨build_index_accumulate_get base pred keyFn k, build_index_overwrite_get base pred keyFn k⟩

/-- C8: national checksum validation looks up the algorithm keyed by the
country code and the bank's `checksum_algo` name (default `"default"`); if no
algorithm is registered for that key the validation trivially passes without
error; otherwise the algorithm's required components are gathered in its
declared order and a mismatch against the stored checksum-digit slice raises
`InvalidBBANChecksum`. -/
theorem claim_C8 (reg : Registry) (b : BBAN) (bank : Option BankEntry)
    (hbank : b.bank reg = .ok bank) :
    (algorithms (String.mk b.country_code ++ ":"
        ++ ((bank.bind BankEntry.checksum_algo).getD "default")) = none →
      b.validate_national_checksum reg = .ok true)
    ∧ (∀ (a : Algorithm) (spec : CountrySpec),
        algorithms (String.mk b.country_code ++ ":"
          ++ ((bank.bind BankEntry.checksum_algo).getD "default")) = some a →
        getBbanSpec reg b.country_code = .ok spec →
        a.validate (a.accepts.map (componentOf spec b))
          (componentOf spec b .national_checksum_digits) = .ok false →
        b.validate_national_checksum reg = .error .invalidBBANChecksum) := by
  constructor
  · intro halg
    unfold BBAN.validate_national_checksum
    simp only [hbank, halg]
  · intro a spec ha hspec hval
    unfold BBAN.validate_national_checksum
    simp only [hbank, ha, hspec, hval]
    rfl

/-- C8 witness: a DE BBAN (no registered algorithm: trivially passes) and a
CZ BBAN whose branch/account weighted sums are nonzero (mismatch raises). -/
theorem claim_C8_witness :
    (BBAN.mk "DE".toList "370400440532013000".toList).validate_national_checksum testRegistry
      = .ok true
    ∧ (BBAN.mk "CZ".toList "00001111110000000000".toList).validate_national_checksum testRegistry
      = .error .invalidBBANChecksum :=
  ⟨(claim_C8 testRegistry (BBAN.mk "DE".toList "370400440532013000".toList) none rfl).1 rfl,
   (claim_C8 testRegistry (BBAN.mk "CZ".toList "00001111110000000000".toList) none rfl).2
     czechAlgorithm czSpec rfl rfl (by decide)⟩

/-- C10: `validate_national_checksum`, despite its docstring, returns `True`
only when no checksum algorithm is registered for the country, and returns
`False` when an algorithm exists and the checksum validates successfully
(raising `InvalidBBANChecksum` only on mismatch). -/
theorem claim_C10 (reg : Registry) (b : BBAN) (bank : Option BankEntry)
    (hbank : b.bank reg = .ok bank) :
    (algorithms (String.mk b.country_code ++ ":"
        ++ ((bank.bind BankEntry.checksum_algo).getD "default")) = none →
      b.validate_national_checksum reg = .ok true)
    ∧ (∀ (a : Algorithm) (spec : CountrySpec),
        algorithms (String.mk b.country_code ++ ":"
          ++ ((bank.bind BankEntry.checksum_algo).getD "default")) = some a →
        getBbanSpec reg b.country_code = .ok spec →
        a.validate (a.accepts.map (componentOf spec b))
          (componentOf spec b .national_checksum_digits) = .ok true →
        b.validate_national_checksum reg = .ok false) := by
  constructor
  · intro halg
    unfold BBAN.validate_national_checksum
    simp only [hbank, halg]
  · intro a spec ha hspec hval
    unfold BBAN.validate_national_checksum
    simp only [hbank, ha, hspec, hval]
    rfl

/-- C10 witness: no algorithm registered for DE gives `True`; a CZ BBAN with
valid (all-zero) checksum digits gives `False` on the non-raising path. -/
theorem claim_C10_witness :
    (BBAN.mk "DE".toList "370400440532013000".toList).validate_national_checksum testRegistry
      = .ok true
    ∧ (BBAN.mk "CZ".toList "00000000000000000000".toList).validate_national_checksum testRegistry
      = .ok false :=
  ⟨(claim_C10 testRegistry (BBAN.mk "DE".toList "370400440532013000".toList) none rfl).1 rfl,
   (claim_C10 testRegistry (BBAN.mk "CZ".toList "00000000000000000000".toList) none rfl).2
     czechAlgorithm czSpec rfl rfl (by decide)⟩

/-- C9: validation failures surface as typed errors, except through the
`is_valid` accessors, which catch every `SchwiftyException` subkind and
return `False`; in particular `IBAN("AB1234567890")` (validation skipped)
has `is_valid = False` (its country lookup fails), and `BIC("FOOBARBAZ")`
(validation skipped) has `is_valid = False` (its length check fails). -/
theorem claim_C9 :
    (∀ (reg : Registry) (i : IBAN) (e : Err), i.validate reg false = .error e →
      e.isSchwifty = true → IBAN.is_valid reg i = .ok false)
    ∧ (∀ (countries : List Char → Bool) (s : List Char) (e : Err),
        bicValidate countries false s = .error e → e.isSchwifty = true →
        BIC.is_valid countries s = .ok false)
    ∧ (∀ reg : Registry, reg.iban "AB".toList = none →
        IBAN.is_valid reg (mkIBAN "AB1234567890".toList) = .ok false)
    ∧ (∀ countries : List Char → Bool,
        BIC.is_valid countries (clean "FOOBARBAZ".toList) = .ok false) := by
  refine ⟨fun reg i e h hs => iban_is_valid_of_error h hs,
    fun countries s e h hs => bic_is_valid_of_error h hs, ?_, ?_⟩
  · intro reg hreg
    have hchars : (mkIBAN "AB1234567890".toList).validateCharacters = .ok () := by decide
    have hcc : (mkIBAN "AB1234567890".toList).country_code = "AB".toList := by decide
    have hlen : (mkIBAN "AB1234567890".toList).validateLength reg
        = .error .invalidCountryCode := by
      unfold IBAN.validateLength getBbanSpec
      rw [hcc, hreg]
    have hval : IBAN.validate reg (mkIBAN "AB1234567890".toList) false
        = .error .invalidCountryCode := by
      unfold IBAN.validate
      rw [hchars, hlen]
      rfl
    exact iban_is_valid_of_error hval rfl
  · intro countries
    have hlen : bicValidateLength (clean "FOOBARBAZ".toList) = .error .invalidLength := by
      decide
    have hval : bicValidate countries false (clean "FOOBARBAZ".toList)
        = .error .invalidLength := by
      unfold bicValidate
      rw [hlen]
      rfl
    exact bic_is_valid_of_error hval rfl

/-- C9 witness: the two scenarios at a concrete registry / country table. -/
theorem claim_C9_witness :
    IBAN.is_valid bicRegistry (mkIBAN "AB1234567890".toList) = .ok false
    ∧ BIC.is_valid allCountries (clean "FOOBARBAZ".toList) = .ok false :=
  ⟨claim_C9.2.2.1 bicRegistry rfl, claim_C9.2.2.2 allCountries⟩

theorem ibanValidate_parts {reg : Registry} {i : IBAN} {vb : Bool} {b : Bool}
    (h : IBAN.validate reg i vb = .ok b) :
    i.validateCharacters = .ok () ∧ i.validateLength reg = .ok ()
    ∧ i.validateFormat reg = .ok () ∧ i.validateIbanChecksum = .ok () := by
  unfold IBAN.validate at h
  rcases h1 : i.validateCharacters with e | u
  · rw [h1] at h; exact absurd h (by simp [Bind.bind, Except.bind])
  · rw [h1] at h
    cases u
    rcases h2 : i.validateLength reg with e | u
    · rw [h2] at h; exact absurd h (by simp [Bind.bind, Except.bind])
    · rw [h2] at h
      cases u
      rcases h3 : i.validateFormat reg with e | u
      · rw [h3] at h; exact absurd h (by simp [Bind.bind, Except.bind])
      · rw [h3] at h
        cases u
        rcases h4 : i.validateIbanChecksum with e | u
        · rw [h4] at h; exact absurd h (by simp [Bind.bind, Except.bind])
        · cases u
          exact ⟨rfl, rfl, rfl, rfl⟩

/-- C1: the IBAN-level checksum check passes exactly when the numeric
(decimal-letter-mapped) representation mod 97 equals 1 AND the ISO 7064
mod 97-10 algorithm independently validates the 2-digit checksum field
against `[bban, country_code]`; if either condition fails it raises
`InvalidChecksumDigits`; consequently every fully validated IBAN satisfies
`numeric(iban) % 97 == 1`. -/
theorem claim_C1 (reg : Registry) (i : IBAN) (n m : Nat)
    (hn : i.numeric = some n)
    (hm : numerify (i.bban.val ++ i.country_code) = some m) :
    (i.validateIbanChecksum = .ok ()
      ↔ (n % 97 = 1
         ∧ ISO7064_mod97_10.validate [i.bban.val, i.country_code] i.checksum_digits = .ok true))
    ∧ (¬(n % 97 = 1
         ∧ ISO7064_mod97_10.validate [i.bban.val, i.country_code] i.checksum_digits = .ok true) →
        i.validateIbanChecksum = .error .invalidChecksumDigits)
    ∧ (∀ b, i.validate reg false = .ok b → n % 97 = 1) := by
  have hcomp : iso7064DefaultCompute [i.bban.val, i.country_code]
      = .ok (iso7064 (m * 100) 97 (fun r => 98 - r)) := by
    unfold iso7064DefaultCompute iso7064Pre numerifyE
    have hfl : ([i.bban.val, i.country_code] : List (List Char)).flatten
        = i.bban.val ++ i.country_code := by simp
    rw [hfl, hm]
    rfl
  have hv : ISO7064_mod97_10.validate [i.bban.val, i.country_code] i.checksum_digits
      = .ok (decide (iso7064 (m * 100) 97 (fun r => 98 - r) = i.checksum_digits)) := by
    show defaultValidate iso7064DefaultCompute _ _ = _
    unfold defaultValidate
    rw [hcomp]
    rfl
  have hval_iff : (ISO7064_mod97_10.validate [i.bban.val, i.country_code] i.checksum_digits
      = .ok true) ↔ iso7064 (m * 100) 97 (fun r => 98 - r) = i.checksum_digits := by
    rw [hv]
    constructor
    · intro h
      have := Except.ok.inj h
      exact of_decide_eq_true this
    · intro h
      rw [decide_eq_true h]
  have hres : i.validateIbanChecksum =
      (if n % 97 = 1 ∧ iso7064 (m * 100) 97 (fun r => 98 - r) = i.checksum_digits
       then .ok () else .error .invalidChecksumDigits) := by
    unfold IBAN.validateIbanChecksum
    simp only [hn]
    by_cases h97 : n % 97 = 1
    · rw [if_neg (by omega), hv]
      by_cases heq : iso7064 (m * 100) 97 (fun r => 98 - r) = i.checksum_digits
      · rw [decide_eq_true heq, if_pos ⟨h97, heq⟩]
      · rw [decide_eq_false heq, if_neg (by tauto)]
    · rw [if_pos (by omega), if_neg (by tauto)]
  refine ⟨?_, ?_, ?_⟩
  · rw [hres, hval_iff]
    by_cases hc : n % 97 = 1 ∧ iso7064 (m * 100) 97 (fun r => 98 - r) = i.checksum_digits
    · rw [if_pos hc]
      simp [hc]
    · rw [if_neg hc]
      simp [hc]
  · intro hnot
    rw [hres, if_neg (fun hc => hnot ⟨hc.1, hval_iff.2 hc.2⟩)]
  · intro b hb
    have h4 := (ibanValidate_parts hb).2.2.2
    rw [hres] at h4
    split at h4
    · next hc => exact hc.1
    · exact absurd h4 (by simp)

/-- C1 witness: the valid IBAN `DE89370400440532013000` over the fixture
registry. -/
theorem claim_C1_witness :
    (mkIBAN "DE89370400440532013000".toList).validateIbanChecksum = .ok ()
    ∧ 370400440532013000131489 % 97 = 1 := by
  have h := claim_C1 testRegistry (mkIBAN "DE89370400440532013000".toList)
    370400440532013000131489 3704004405320130001314 (by decide) (by decide)
  exact ⟨h.1.mpr ⟨by decide, by decide⟩, h.2.2 true (by decide)⟩

/-- C5: `from_bank_code` returns the sole candidate when exactly one exists;
with multiple candidates it prefers entries with no branch-code suffix
(taking the lexicographically greatest); otherwise entries whose branch code
is literally `"XXX"` (again greatest); otherwise the first candidate (in the
primary-first candidate order); no directory entry at all raises
`InvalidBankCode`. -/
theorem claim_C5 (reg : Registry) (countries : List Char → Bool)
    (country_code bank_code : List Char) :
    (reg.bank_code (country_code, bank_code) = none →
      BIC.from_bank_code reg countries country_code bank_code = .error .invalidBankCode)
    ∧ (∀ cands, BIC.candidates_from_bank_code reg countries country_code bank_code = .ok cands →
        (cands = [] →
          BIC.from_bank_code reg countries country_code bank_code = .error .invalidBankCode)
        ∧ (∀ c, cands = [c] →
            BIC.from_bank_code reg countries country_code bank_code = .ok c)
        ∧ (1 < cands.length →
            cands.filter (fun c => (bicBranchCode c).isEmpty) ≠ [] →
            ∃ r, BIC.from_bank_code reg countries country_code bank_code = .ok r
              ∧ r ∈ cands.filter (fun c => (bicBranchCode c).isEmpty)
              ∧ ∀ x ∈ cands.filter (fun c => (bicBranchCode c).isEmpty), strLE x r)
        ∧ (1 < cands.length →
            cands.filter (fun c => (bicBranchCode c).isEmpty) = [] →
            cands.filter (fun c => decide (bicBranchCode c = "XXX".toList)) ≠ [] →
            ∃ r, BIC.from_bank_code reg countries country_code bank_code = .ok r
              ∧ r ∈ cands.filter (fun c => decide (bicBranchCode c = "XXX".toList))
              ∧ ∀ x ∈ cands.filter (fun c => decide (bicBranchCode c = "XXX".toList)), strLE x r)
        ∧ (1 < cands.length →
            cands.filter (fun c => (bicBranchCode c).isEmpty) = [] →
            cands.filter (fun c => decide (bicBranchCode c = "XXX".toList)) = [] →
            ∀ c rest, cands = c :: rest →
              BIC.from_bank_code reg countries country_code bank_code = .ok c)) := by
  constructor
  · intro h
    unfold BIC.from_bank_code BIC.candidates_from_bank_code
    simp only [h]
  · intro cands hc
    refine ⟨?_, ?_, ?_, ?_, ?_⟩
    · intro hnil
      subst hnil
      unfold BIC.from_bank_code
      simp only [hc]
      rfl
    · intro c hone
      subst hone
      unfold BIC.from_bank_code
      simp only [hc]
      rfl
    · intro hlen hne
      unfold BIC.from_bank_code
      simp only [hc]
      rw [if_pos hlen, if_pos (by simpa using hne)]
      exact ⟨sortedLastStr (cands.filter (fun c => (bicBranchCode c).isEmpty)), rfl,
        (sortedLastStr_spec hne).1, (sortedLastStr_spec hne).2⟩
    · intro hlen hgen hne
      unfold BIC.from_bank_code
      simp only [hc]
      rw [if_pos hlen, if_neg (by simpa using hgen), if_pos (by simpa using hne)]
      exact ⟨sortedLastStr (cands.filter (fun c => decide (bicBranchCode c = "XXX".toList))),
        rfl, (sortedLastStr_spec hne).1, (sortedLastStr_spec hne).2⟩
    · intro hlen hgen hxxx c rest hcons
      unfold BIC.from_bank_code
      simp only [hc]
      rw [if_pos hlen, if_neg (by simpa using hgen), if_neg (by simpa using hxxx)]
      subst hcons
      rfl

/-- C5 witness: three candidates for one bank code; the branch-less
`COMMDEFF` is picked as the single generic candidate. -/
theorem claim_C5_witness :
    ∃ r, BIC.from_bank_code bicRegistry allCountries "DE".toList "10000000".toList = .ok r
      ∧ r ∈ (["COMMDEFFXXX".toList, "COMMDEFF".toList, "COMMDEFF500".toList].filter
          (fun c => (bicBranchCode c).isEmpty))
      ∧ ∀ x ∈ (["COMMDEFFXXX".toList, "COMMDEFF".toList, "COMMDEFF500".toList].filter
          (fun c => (bicBranchCode c).isEmpty)), strLE x r :=
  ((claim_C5 bicRegistry allCountries "DE".toList "10000000".toList).2
    ["COMMDEFFXXX".toList, "COMMDEFF".toList, "COMMDEFF500".toList] (by decide)).2.2.1
    (by decide) (by decide)

theorem pySlice_length (l : List Char) (a b : Nat) :
    (pySlice l a b).length = min (b - a) (l.length - a) := by
  simp [pySlice]

/-- C3 (counterexample): for a country whose spec has no branch-code
position (width 0, e.g. the DE-like spec), a supplied oversized branch code
does *not* raise `InvalidBranchCode`: the automatic bank-code split
overwrites it with the empty slice and `from_components` succeeds. -/
theorem claim_C3_counterexample :
    BBAN.from_components testRegistry "DE".toList
      (componentValues "37040044".toList "1".toList "0532013000".toList)
      = .ok ⟨"DE".toList, "370400440532013000".toList⟩ := by
  decide

/-- C3 (amended): in `from_components`, a bank code longer than its field
width raises `InvalidBankCode`, except that input of exactly
`bank_code_width + branch_code_width` characters is split into bank code and
branch code instead; a bank code exactly at the field width succeeds (given
in-width branch/account codes and no registered national checksum);
an oversized branch code raises `InvalidBranchCode` *provided the country
has a positive branch-code width* (with width 0 the automatic split
discards the supplied branch code silently, see the counterexample); an
oversized account code raises `InvalidAccountCode`. -/
theorem claim_C3 (reg : Registry) (country_code : List Char) (spec : CountrySpec)
    (ranges : Component → Range) (bank branch account : List Char)
    (hspec : reg.iban country_code = some spec) (hpos : spec.positions = some ranges) :
    ((ranges .bank_code).length < (clean bank).length →
      (clean bank).length ≠ (ranges .bank_code).length + (ranges .branch_code).length →
      BBAN.from_components reg country_code (componentValues bank branch account)
        = .error .invalidBankCode)
    ∧ ((clean bank).length = (ranges .bank_code).length →
      (clean branch).length ≤ (ranges .branch_code).length →
      (clean account).length ≤ (ranges .account_code).length →
      algorithms (String.mk country_code ++ ":default") = none →
      ∃ b, BBAN.from_components reg country_code (componentValues bank branch account) = .ok b)
    ∧ ((clean bank).length = (ranges .bank_code).length + (ranges .branch_code).length →
      0 < (ranges .branch_code).length →
      (clean account).length ≤ (ranges .account_code).length →
      algorithms (String.mk country_code ++ ":default") = none →
      ∃ b, BBAN.from_components reg country_code (componentValues bank branch account) = .ok b)
    ∧ ((clean bank).length ≤ (ranges .bank_code).length →
      0 < (ranges .branch_code).length →
      (ranges .branch_code).length < (clean branch).length →
      BBAN.from_components reg country_code (componentValues bank branch account)
        = .error .invalidBranchCode)
    ∧ ((clean bank).length ≤ (ranges .bank_code).length →
      ((clean branch).length ≤ (ranges .branch_code).length ∨ (ranges .branch_code).length = 0) →
      (ranges .account_code).length < (clean account).length →
      BBAN.from_components reg country_code (componentValues bank branch account)
        = .error .invalidAccountCode) := by
  have hpb : paddedComponents (componentValues bank branch account) ranges .bank_code
      = zfill (clean bank) (ranges .bank_code).length := rfl
  have hpbr : paddedComponents (componentValues bank branch account) ranges .branch_code
      = zfill (clean branch) (ranges .branch_code).length := rfl
  have hpa : paddedComponents (componentValues bank branch account) ranges .account_code
      = zfill (clean account) (ranges .account_code).length := rfl
  refine ⟨?_, ?_, ?_, ?_, ?_⟩
  · -- oversized, non-splittable bank code
    intro hbig hne
    have hz : zfill (clean bank) (ranges .bank_code).length = clean bank :=
      zfill_of_le (by omega)
    have hsplit : splitBankCode ranges (paddedComponents (componentValues bank branch account)
        ranges) = paddedComponents (componentValues bank branch account) ranges := by
      unfold splitBankCode
      rw [hpb, hz]
      rw [if_neg hne]
    unfold BBAN.from_components getBbanSpec
    simp only [hspec, hpos, hsplit]
    rw [hpb, hz]
    rw [if_pos hbig]
  · -- bank code exactly at width succeeds
    intro hb hbr ha halg
    have hin : ∀ k, (clean (((componentValues bank branch account) k).getD [])).length
        ≤ (ranges k).length := by
      intro k
      cases k <;> simp only [componentValues, Option.getD] <;>
        first
        | omega
        | (show (clean []).length ≤ _; simp [clean])
    rw [from_components_eq hspec hpos hin]
    have hcs0 : compute_national_checksum country_code
        (paddedComponents (componentValues bank branch account) ranges) = .ok [] := by
      unfold compute_national_checksum
      rw [halg]
    rw [hcs0]
    exact ⟨_, rfl⟩
  · -- splittable bank code succeeds
    intro hsum hbrpos ha halg
    have hz : zfill (clean bank) (ranges .bank_code).length = clean bank :=
      zfill_of_le (by omega)
    have hza : (zfill (clean account) (ranges .account_code).length).length
        = (ranges .account_code).length := zfill_length_of_le ha
    have hsplit : splitBankCode ranges (paddedComponents (componentValues bank branch account)
        ranges) = fun k =>
          match k with
          | .branch_code => pySlice (clean bank) (ranges .bank_code).length
              ((ranges .bank_code).length + (ranges .branch_code).length)
          | .bank_code => (clean bank).take (ranges .bank_code).length
          | _ => paddedComponents (componentValues bank branch account) ranges k := by
      unfold splitBankCode
      rw [hpb, hz]
      rw [if_pos hsum]
    unfold BBAN.from_components getBbanSpec
    simp only [hspec, hpos, hsplit]
    have hc1 : ¬((ranges .bank_code).length
        < ((clean bank).take (ranges .bank_code).length).length) := by
      rw [List.length_take]; omega
    rw [if_neg hc1]
    have hc2 : ¬((ranges .branch_code).length
        < (pySlice (clean bank) (ranges .bank_code).length
            ((ranges .bank_code).length + (ranges .branch_code).length)).length) := by
      rw [pySlice_length]; omega
    rw [if_neg hc2]
    have hc3 : ¬((ranges .account_code).length
        < (paddedComponents (componentValues bank branch account) ranges .account_code).length)
        := by
      rw [hpa, hza]; omega
    rw [if_neg hc3]
    have hcs0 : compute_national_checksum country_code (fun k =>
        match k with
        | .branch_code => pySlice (clean bank) (ranges .bank_code).length
            ((ranges .bank_code).length + (ranges .branch_code).length)
        | .bank_code => (clean bank).take (ranges .bank_code).length
        | _ => paddedComponents (componentValues bank branch account) ranges k) = .ok [] := by
      unfold compute_national_checksum
      rw [halg]
    rw [hcs0]
    exact ⟨_, rfl⟩
  · -- oversized branch code with positive branch width
    intro hb hbrpos hbig
    have hzb : (zfill (clean bank) (ranges .bank_code).length).length
        = (ranges .bank_code).length := zfill_length_of_le hb
    have hz : zfill (clean branch) (ranges .branch_code).length = clean branch :=
      zfill_of_le (by omega)
    have hsplit : splitBankCode ranges (paddedComponents (componentValues bank branch account)
        ranges) = paddedComponents (componentValues bank branch account) ranges := by
      unfold splitBankCode
      rw [hpb]
      rw [if_neg (by rw [hzb]; omega)]
    unfold BBAN.from_components getBbanSpec
    simp only [hspec, hpos, hsplit]
    have hc1 : ¬((ranges .bank_code).length
        < (paddedComponents (componentValues bank branch account) ranges .bank_code).length)
        := by
      rw [hpb, hzb]; omega
    rw [if_neg hc1]
    have hc2 : (ranges .branch_code).length
        < (paddedComponents (componentValues bank branch account) ranges .branch_code).length
        := by
      rw [hpbr, hz]; omega
    rw [if_pos hc2]
  · -- oversized account code
    intro hb hbr hbig
    have hzb : (zfill (clean bank) (ranges .bank_code).length).length
        = (ranges .bank_code).length := zfill_length_of_le hb
    have hza : zfill (clean account) (ranges .account_code).length = clean account :=
      zfill_of_le (by omega)
    by_cases hsplitc : (zfill (clean bank) (ranges .bank_code).length).length
        = (ranges .bank_code).length + (ranges .branch_code).length
    · have hsplit : splitBankCode ranges (paddedComponents (componentValues bank branch account)
          ranges) = fun k =>
            match k with
            | .branch_code => pySlice (zfill (clean bank) (ranges .bank_code).length)
                (ranges .bank_code).length
                ((ranges .bank_code).length + (ranges .branch_code).length)
            | .bank_code => (zfill (clean bank) (ranges .bank_code).length).take
                (ranges .bank_code).length
            | _ => paddedComponents (componentValues bank branch account) ranges k := by
        unfold splitBankCode
        rw [hpb]
        rw [if_pos hsplitc]
      unfold BBAN.from_components getBbanSpec
      simp only [hspec, hpos, hsplit]
      have hc1 : ¬((ranges .bank_code).length
          < ((zfill (clean bank) (ranges .bank_code).length).take
              (ranges .bank_code).length).length) := by
        rw [List.length_take]; omega
      rw [if_neg hc1]
      have hc2 : ¬((ranges .branch_code).length
          < (pySlice (zfill (clean bank) (ranges .bank_code).length)
              (ranges .bank_code).length
              ((ranges .bank_code).length + (ranges .branch_code).length)).length) := by
        rw [pySlice_length, hzb]; omega
      rw [if_neg hc2]
      have hc3 : (ranges .account_code).length
          < (paddedComponents (componentValues bank branch account) ranges .account_code).length
          := by
        rw [hpa, hza]; omega
      rw [if_pos hc3]
    · have hsplit : splitBankCode ranges (paddedComponents (componentValues bank branch account)
          ranges) = paddedComponents (componentValues bank branch account) ranges := by
        unfold splitBankCode
        rw [hpb]
        rw [if_neg hsplitc]
      unfold BBAN.from_components getBbanSpec
      simp only [hspec, hpos, hsplit]
      have hc1 : ¬((ranges .bank_code).length
          < (paddedComponents (componentValues bank branch account) ranges .bank_code).length)
          := by
        rw [hpb, hzb]; omega
      rw [if_neg hc1]
      have hbr' : (clean branch).length ≤ (ranges .branch_code).length := by
        rcases hbr with hbr | hbr
        · exact hbr
        · rw [hzb] at hsplitc; omega
      have hc2 : ¬((ranges .branch_code).length
          < (paddedComponents (componentValues bank branch account) ranges .branch_code).length)
          := by
        rw [hpbr, zfill_length_of_le hbr']; omega
      rw [if_neg hc2]
      have hc3 : (ranges .account_code).length
          < (paddedComponents (componentValues bank branch account) ranges .account_code).length
          := by
        rw [hpa, hza]; omega
      rw [if_pos hc3]

/-- C3 witness: the five boundary behaviours at concrete fixture specs. -/
theorem claim_C3_witness :
    BBAN.from_components testRegistry "DE".toList
        (componentValues "123456789".toList [] "1".toList) = .error .invalidBankCode
    ∧ (∃ b, BBAN.from_components testRegistry "DE".toList
        (componentValues "37040044".toList [] "0532013000".toList) = .ok b)
    ∧ (∃ b, BBAN.from_components testRegistry "GB".toList
        (componentValues "0123456789".toList [] "12345678".toList) = .ok b)
    ∧ BBAN.from_components testRegistry "GB".toList
        (componentValues "1234".toList "1234567".toList "12345678".toList)
        = .error .invalidBranchCode
    ∧ BBAN.from_components testRegistry "DE".toList
        (componentValues "37040044".toList [] "12345678901".toList)
        = .error .invalidAccountCode := by
  have hde := claim_C3 testRegistry "DE".toList deSpec
    (deSpec.positions.getD (fun _ => ⟨0, 0⟩))
  have hgb := claim_C3 testRegistry "GB".toList gbSpec
    (gbSpec.positions.getD (fun _ => ⟨0, 0⟩))
  refine ⟨?_, ?_, ?_, ?_, ?_⟩
  · exact (hde "123456789".toList [] "1".toList rfl rfl).1 (by decide) (by decide)
  · exact (hde "37040044".toList [] "0532013000".toList rfl rfl).2.1
      (by decide) (by decide) (by decide) rfl
  · exact (hgb "0123456789".toList [] "12345678".toList rfl rfl).2.2.1
      (by decide) (by decide) (by decide) rfl
  · exact (hgb "1234".toList "1234567".toList "12345678".toList rfl rfl).2.2.2.1
      (by decide) (by decide) (by decide)
  · exact (hde "37040044".toList [] "12345678901".toList rfl rfl).2.2.2.2
      (by decide) (by decide) (by decide)

theorem getSlice_take2 {cc rest : List Char} (h : cc.length = 2) :
    getSlice (cc ++ rest) 0 (some 2) = cc := by
  rw [getSlice_eq_pySlice (by simp; omega) (by simp; omega)]
  unfold pySlice
  rw [List.drop_zero, Nat.sub_zero, ← h, List.take_left]

theorem getSlice_drop4 {p rest : List Char} (h : p.length = 4) :
    getSlice (p ++ rest) 4 none = rest := by
  unfold getSlice
  by_cases hr : rest = []
  · subst hr
    rw [if_neg (by simp [h])]
  · rw [if_pos (by
      simp only [List.length_append, h]
      have : 0 < rest.length := List.length_pos.2 hr
      simp
      omega)]
    show (p ++ rest).drop 4 = rest
    rw [← h, List.drop_left]

theorem validateLength_ok {reg : Registry} {i : IBAN} (h : i.validateLength reg = .ok ()) :
    ∀ spec, getBbanSpec reg i.country_code = .ok spec → spec.iban_length = i.val.length := by
  unfold IBAN.validateLength at h
  rcases hs : getBbanSpec reg i.country_code with e | spec'
  · rw [hs] at h
    exact absurd h (by simp)
  · rw [hs] at h
    change (if spec'.iban_length ≠ i.val.length then Except.error Err.invalidLength
      else Except.ok ()) = Except.ok () at h
    split at h
    · exact absurd h (by simp)
    · next hne =>
      intro spec hs2
      injection hs2 with hs2
      subst hs2
      omega

/-- Each padded-and-spliced component value has exactly its field width. -/
theorem splice_padded_length {values : Component → Option (List Char)}
    {ranges : Component → Range} {cs : List Char} (k : Component)
    (hin : ∀ k, (clean ((values k).getD [])).length ≤ (ranges k).length)
    (hcsl : cs = [] ∨ cs.length = (ranges .national_checksum_digits).length) :
    (spliceChecksum (paddedComponents values ranges) cs k).length = (ranges k).length := by
  unfold spliceChecksum
  split
  · next hne =>
    show (if k = Component.national_checksum_digits then cs
      else paddedComponents values ranges k).length = _
    by_cases hk : k = Component.national_checksum_digits
    · rw [if_pos hk]
      rcases hcsl with rfl | h
      · exact absurd rfl hne
      · rw [h, hk]
    · rw [if_neg hk]
      exact paddedComponents_length_of_le (hin k)
  · exact paddedComponents_length_of_le (hin k)

/-- Each padded-and-spliced component value consists of clean characters. -/
theorem splice_padded_cleanChar {values : Component → Option (List Char)}
    {ranges : Component → Range} {cs : List Char} {country_code : List Char}
    {comps : Component → List Char} (k : Component)
    (hcs : compute_national_checksum country_code comps = .ok cs) :
    ∀ c ∈ spliceChecksum (paddedComponents values ranges) cs k, cleanChar c := by
  intro c hc
  have hpad : ∀ c ∈ paddedComponents values ranges k, cleanChar c := by
    intro c hc
    rcases mem_zfill hc with hc' | rfl
    · exact cleanChar_of_mem_clean hc'
    · exact cleanChar_of_range (by decide) (by decide)
  unfold spliceChecksum at hc
  by_cases hne : cs ≠ []
  · rw [if_pos hne] at hc
    change c ∈ (if k = Component.national_checksum_digits then cs
      else paddedComponents values ranges k) at hc
    by_cases hk : k = Component.national_checksum_digits
    · rw [if_pos hk] at hc
      exact compute_national_checksum_cleanChar hcs c hc
    · rw [if_neg hk] at hc
      exact hpad c hc
  · rw [if_neg hne] at hc
    exact hpad c hc

/-- C7: with per-country ranges that fit inside the BBAN buffer and in-width
component inputs, a BBAN produced by `from_components` has length exactly
`bban_length`, and an IBAN produced by `generate` has length exactly
`iban_length`. -/
theorem claim_C7 (reg : Registry) (country_code : List Char) (spec : CountrySpec)
    (ranges : Component → Range) (bank branch account : List Char)
    (hspec : reg.iban country_code = some spec) (hpos : spec.positions = some ranges)
    (hwf : ∀ k, (ranges k).start ≤ (ranges k).stop ∧ (ranges k).stop ≤ spec.bban_length)
    (hb : (clean bank).length ≤ (ranges .bank_code).length)
    (hbr : (clean branch).length ≤ (ranges .branch_code).length)
    (ha : (clean account).length ≤ (ranges .account_code).length)
    (hcs : ∀ cs, compute_national_checksum country_code
        (paddedComponents (componentValues bank branch account) ranges) = .ok cs →
        cs = [] ∨ cs.length = (ranges .national_checksum_digits).length)
    (hcc2 : country_code.length = 2) (hccclean : clean country_code = country_code) :
    (∀ b, BBAN.from_components reg country_code (componentValues bank branch account) = .ok b →
        b.val.length = spec.bban_length)
    ∧ (∀ i, IBAN.generate reg country_code bank account branch = .ok i →
        i.val.length = spec.iban_length) := by
  have hin : ∀ k, (clean (((componentValues bank branch account) k).getD [])).length
      ≤ (ranges k).length := by
    intro k
    cases k <;> simp only [componentValues, Option.getD] <;>
      first
      | omega
      | (show (clean []).length ≤ _; simp [clean])
  have main : ∀ b, BBAN.from_components reg country_code
      (componentValues bank branch account) = .ok b → b.val.length = spec.bban_length := by
    intro b hb'
    rw [from_components_eq hspec hpos hin] at hb'
    rcases hcsr : compute_national_checksum country_code
        (paddedComponents (componentValues bank branch account) ranges) with e | cs
    · rw [hcsr] at hb'; exact absurd hb' (by simp)
    · rw [hcsr] at hb'
      injection hb' with hb'
      have hclean : ∀ c ∈ overlay ranges
          (spliceChecksum (paddedComponents (componentValues bank branch account) ranges) cs)
          (List.replicate spec.bban_length '0'), cleanChar c := by
        refine overlayFold_mem cleanChar Component.all _ ?_ ?_
        · intro c hc
          rw [List.eq_of_mem_replicate hc]
          exact cleanChar_of_range (by decide) (by decide)
        · intro k _
          exact splice_padded_cleanChar k hcsr
      have hval : b.val = overlay ranges
          (spliceChecksum (paddedComponents (componentValues bank branch account) ranges) cs)
          (List.replicate spec.bban_length '0') := by
        rw [← hb']
        exact clean_eq_self hclean
      rw [hval]
      unfold overlay
      rw [overlayFold_length _ _ Component.all _ (fun k _ => Or.inr
        ⟨(hwf k).1, by rw [List.length_replicate]; exact (hwf k).2,
          splice_padded_length k hin (hcs cs hcsr)⟩)]
      exact List.length_replicate _ _
  refine ⟨main, ?_⟩
  intro i hgen
  unfold IBAN.generate at hgen
  rcases hfc : BBAN.from_components reg country_code (componentValues bank branch account)
      with e | b
  · rw [hfc] at hgen; exact absurd hgen (by simp)
  · simp only [hfc] at hgen
    unfold IBAN.from_bban at hgen
    split at hgen
    · exact absurd hgen (by simp)
    · next cs2 hcp =>
      dsimp only at hgen
      split at hgen
      · exact absurd hgen (by simp)
      · next bb hv =>
        injection hgen with hgen
        subst hgen
        -- the checksum digits are two clean decimal digits
        have hcs2 : cs2.length = 2 ∧ ∀ c ∈ cs2, cleanChar c := by
          have : iso7064DefaultCompute [b.val, country_code] = .ok cs2 := hcp
          unfold iso7064DefaultCompute at this
          rcases hpre : iso7064Pre [b.val, country_code] with e | n
          · rw [hpre] at this; exact absurd this (by simp [Except.map])
          · rw [hpre] at this
            simp only [Except.map] at this
            injection this with this
            subst this
            refine ⟨fmt02_length (by show 98 - n % 97 < 100; omega), fmt02_cleanChar⟩
        -- the constructed value is already clean
        have hbvalclean : clean b.val = b.val := by
          have hb2 := hfc
          rw [from_components_eq hspec hpos hin] at hb2
          rcases hcsr : compute_national_checksum country_code
              (paddedComponents (componentValues bank branch account) ranges) with e | cs
          · rw [hcsr] at hb2; exact absurd hb2 (by simp)
          · rw [hcsr] at hb2
            injection hb2 with hb2
            rw [← hb2]
            exact clean_idem _
        have hival : (mkIBAN (country_code ++ cs2 ++ b.val)).val
            = country_code ++ cs2 ++ b.val := by
          show clean (country_code ++ cs2 ++ b.val) = country_code ++ cs2 ++ b.val
          rw [clean_append, clean_append, hccclean, hbvalclean,
            clean_eq_self (fun c hc => hcs2.2 c hc)]
        have hcc : (mkIBAN (country_code ++ cs2 ++ b.val)).country_code = country_code := by
          unfold IBAN.country_code
          rw [hival, List.append_assoc]
          exact getSlice_take2 hcc2
        have h2 := (ibanValidate_parts hv).2.1
        have h3 := validateLength_ok h2 spec (by rw [hcc]; unfold getBbanSpec; rw [hspec])
        rw [h3]

/-- C7 witness: the DE fixture at `generate("DE", "37040044", "532013000")`. -/
theorem claim_C7_witness :
    (∀ b, BBAN.from_components testRegistry "DE".toList
        (componentValues "37040044".toList [] "532013000".toList) = .ok b →
        b.val.length = deSpec.bban_length)
    ∧ (∀ i, IBAN.generate testRegistry "DE".toList "37040044".toList "532013000".toList []
        = .ok i → i.val.length = deSpec.iban_length) :=
  claim_C7 testRegistry "DE".toList deSpec (deSpec.positions.getD (fun _ => ⟨0, 0⟩))
    "37040044".toList [] "532013000".toList rfl rfl
    (by intro k; cases k <;> simp [deSpec, Range.length])
    (by decide) (by decide) (by decide)
    (fun cs h => Or.inl (Except.ok.inj ((rfl :
      compute_national_checksum "DE".toList
        (paddedComponents (componentValues "37040044".toList [] "532013000".toList)
          (deSpec.positions.getD (fun _ => ⟨0, 0⟩))) = .ok []).symm.trans h)).symm)
    (by decide) (by decide)

theorem spliceChecksum_ne (comps : Component → List Char) (cs : List Char) {k : Component}
    (hk : k ≠ Component.national_checksum_digits) :
    spliceChecksum comps cs k = comps k := by
  unfold spliceChecksum
  by_cases hne : cs ≠ []
  · rw [if_pos hne]
    show (if k = Component.national_checksum_digits then cs else comps k) = comps k
    rw [if_neg hk]
  · rw [if_neg hne]

theorem isEmpty_false_of_pos {r : Range} (h : 0 < r.length) : r.isEmpty = false := by
  have h2 : ¬r.stop = 0 := by
    have h3 : 0 < r.stop - r.start := h
    omega
  unfold Range.isEmpty
  simp [h2]

/-- C2: for a registered country with well-formed, pairwise disjoint position
ranges and positive bank/account widths, `generate` followed by reading the
produced IBAN reports the country code and the zero-padded bank and account
codes back. -/
theorem claim_C2 (reg : Registry) (cc : List Char) (spec : CountrySpec)
    (ranges : Component → Range) (bank account : List Char)
    (hspec : reg.iban cc = some spec) (hpos : spec.positions = some ranges)
    (hcc2 : cc.length = 2) (hccclean : clean cc = cc)
    (hbclean : clean bank = bank) (haclean : clean account = account)
    (hb : bank.length ≤ (ranges .bank_code).length)
    (ha : account.length ≤ (ranges .account_code).length)
    (hbpos : 0 < (ranges .bank_code).length)
    (hapos : 0 < (ranges .account_code).length)
    (hwf : ∀ k, (ranges k).start ≤ (ranges k).stop ∧ (ranges k).stop ≤ spec.bban_length)
    (hdisj : ∀ k k', k ≠ k' → (ranges k).stop ≤ (ranges k').start ∨
      (ranges k').stop ≤ (ranges k).start ∨ (ranges k).length = 0 ∨ (ranges k').length = 0)
    (hcs : ∀ cs, compute_national_checksum cc
        (paddedComponents (componentValues bank [] account) ranges) = .ok cs →
        cs = [] ∨ cs.length = (ranges .national_checksum_digits).length) :
    ∀ i, IBAN.generate reg cc bank account [] = .ok i →
      i.country_code = cc
      ∧ IBAN.bank_code reg i = .ok (zfill bank (ranges .bank_code).length)
      ∧ IBAN.account_code reg i = .ok (zfill account (ranges .account_code).length) := by
  have hin : ∀ k, (clean (((componentValues bank [] account) k).getD [])).length
      ≤ (ranges k).length := by
    intro k
    cases k <;> simp only [componentValues, Option.getD] <;>
      first
      | (rw [hbclean]; exact hb)
      | (rw [haclean]; exact ha)
      | (show (clean []).length ≤ _; simp [clean])
  intro i hgen
  unfold IBAN.generate at hgen
  rcases hfc : BBAN.from_components reg cc (componentValues bank [] account) with e | b
  · rw [hfc] at hgen
    exact absurd hgen (by simp)
  · simp only [hfc] at hgen
    unfold IBAN.from_bban at hgen
    split at hgen
    · exact absurd hgen (by simp)
    · next cs2 hcp =>
      dsimp only at hgen
      split at hgen
      · exact absurd hgen (by simp)
      · next bb hv =>
        injection hgen with hgen
        subst hgen
        have hb2 := hfc
        rw [from_components_eq hspec hpos hin] at hb2
        rcases hcsr : compute_national_checksum cc
            (paddedComponents (componentValues bank [] account) ranges) with e | cs
        · rw [hcsr] at hb2
          exact absurd hb2 (by simp)
        · rw [hcsr] at hb2
          injection hb2 with hb2
          have hcleanall : ∀ c ∈ overlay ranges
              (spliceChecksum (paddedComponents (componentValues bank [] account) ranges) cs)
              (List.replicate spec.bban_length '0'), cleanChar c := by
            refine overlayFold_mem cleanChar Component.all _ ?_ ?_
            · intro c hc
              rw [List.eq_of_mem_replicate hc]
              exact cleanChar_of_range (by decide) (by decide)
            · intro k _
              exact splice_padded_cleanChar k hcsr
          have hbvOV : b.val = overlay ranges
              (spliceChecksum (paddedComponents (componentValues bank [] account) ranges) cs)
              (List.replicate spec.bban_length '0') := by
            rw [← hb2]
            exact clean_eq_self hcleanall
          have hbvalclean : clean b.val = b.val := by
            rw [hbvOV]
            exact clean_eq_self hcleanall
          have hsplen : ∀ k, (spliceChecksum
              (paddedComponents (componentValues bank [] account) ranges) cs k).length
              = (ranges k).length :=
            fun k => splice_padded_length k hin (hcs cs hcsr)
          have hstop : ∀ k, (ranges k).stop ≤ (List.replicate spec.bban_length '0').length := by
            intro k
            rw [List.length_replicate]
            exact (hwf k).2
          have hbvallen : b.val.length = spec.bban_length := by
            rw [hbvOV]
            unfold overlay
            rw [overlayFold_length _ _ Component.all _
              (fun k _ => Or.inr ⟨(hwf k).1, hstop k, hsplen k⟩)]
            exact List.length_replicate _ _
          have hcs2 : cs2.length = 2 ∧ ∀ c ∈ cs2, cleanChar c := by
            have hdc : iso7064DefaultCompute [b.val, cc] = .ok cs2 := hcp
            unfold iso7064DefaultCompute at hdc
            rcases hpre : iso7064Pre [b.val, cc] with e | n
            · rw [hpre] at hdc
              exact absurd hdc (by simp [Except.map])
            · rw [hpre] at hdc
              simp only [Except.map] at hdc
              injection hdc with hdc
              subst hdc
              refine ⟨fmt02_length (by show 98 - n % 97 < 100; omega), fmt02_cleanChar⟩
          have hival : (mkIBAN (cc ++ cs2 ++ b.val)).val = cc ++ cs2 ++ b.val := by
            show clean (cc ++ cs2 ++ b.val) = cc ++ cs2 ++ b.val
            rw [clean_append, clean_append, hccclean, hbvalclean,
              clean_eq_self (fun c hc => hcs2.2 c hc)]
          have hcc : (mkIBAN (cc ++ cs2 ++ b.val)).country_code = cc := by
            unfold IBAN.country_code
            rw [hival, List.append_assoc]
            exact getSlice_take2 hcc2
          have hbcc : (mkIBAN (cc ++ cs2 ++ b.val)).bban.country_code = cc := hcc
          have hbv : (mkIBAN (cc ++ cs2 ++ b.val)).bban.val = b.val := by
            show clean (getSlice (mkIBAN (cc ++ cs2 ++ b.val)).val 4 none) = b.val
            rw [hival, getSlice_drop4 (by rw [List.length_append, hcc2, hcs2.1])]
            exact hbvalclean
          have hspecok : getBbanSpec reg cc = .ok spec := by
            unfold getBbanSpec
            simp only [hspec]
          have hcomp : ∀ k, componentOf spec (mkIBAN (cc ++ cs2 ++ b.val)).bban k
              = getSlice b.val (ranges k).start (some (ranges k).stop) := by
            intro k
            show getSlice (mkIBAN (cc ++ cs2 ++ b.val)).bban.val (getPositionRange spec k).start
              (some (getPositionRange spec k).stop) = _
            unfold getPositionRange
            rw [hpos, hbv]
            rfl
          have hltb : (ranges Component.bank_code).start < b.val.length := by
            have h1 : 0 < (ranges Component.bank_code).stop
                - (ranges Component.bank_code).start := hbpos
            have h2 := (hwf Component.bank_code).2
            rw [hbvallen]
            omega
          have hleb : (ranges Component.bank_code).stop ≤ b.val.length := by
            rw [hbvallen]
            exact (hwf Component.bank_code).2
          have hlta : (ranges Component.account_code).start < b.val.length := by
            have h1 : 0 < (ranges Component.account_code).stop
                - (ranges Component.account_code).start := hapos
            have h2 := (hwf Component.account_code).2
            rw [hbvallen]
            omega
          have hlea : (ranges Component.account_code).stop ≤ b.val.length := by
            rw [hbvallen]
            exact (hwf Component.account_code).2
          have hreadbank : pySlice b.val (ranges Component.bank_code).start
              (ranges Component.bank_code).stop
              = spliceChecksum (paddedComponents (componentValues bank [] account) ranges) cs
                  Component.bank_code := by
            rw [hbvOV]
            refine overlay_slice_written
              (show Component.all = [Component.account_id, Component.account_type,
                  Component.account_code, Component.account_holder_id, Component.currency_code]
                ++ Component.bank_code
                :: [Component.branch_code, Component.national_checksum_digits] from rfl)
              (fun k _ => Or.inr ⟨(hwf k).1, hstop k, hsplen k⟩)
              (isEmpty_false_of_pos hbpos) (hwf _).1 (hstop _) (hsplen _) ?_
            intro k hk
            refine Or.inr ⟨(hwf k).1, hstop k, hsplen k, ?_⟩
            simp only [List.mem_cons, List.not_mem_nil, or_false] at hk
            rcases hk with rfl | rfl
            · rcases hdisj Component.bank_code Component.branch_code (by decide)
                with d | d | d | d
              · exact Or.inl d
              · exact Or.inr (Or.inl d)
              · exact absurd d (by omega)
              · exact Or.inr (Or.inr d)
            · rcases hdisj Component.bank_code Component.national_checksum_digits (by decide)
                with d | d | d | d
              · exact Or.inl d
              · exact Or.inr (Or.inl d)
              · exact absurd d (by omega)
              · exact Or.inr (Or.inr d)
          have hreadaccount : pySlice b.val (ranges Component.account_code).start
              (ranges Component.account_code).stop
              = spliceChecksum (paddedComponents (componentValues bank [] account) ranges) cs
                  Component.account_code := by
            rw [hbvOV]
            refine overlay_slice_written
              (show Component.all = [Component.account_id, Component.account_type]
                ++ Component.account_code
                :: [Component.account_holder_id, Component.currency_code, Component.bank_code,
                    Component.branch_code, Component.national_checksum_digits] from rfl)
              (fun k _ => Or.inr ⟨(hwf k).1, hstop k, hsplen k⟩)
              (isEmpty_false_of_pos hapos) (hwf _).1 (hstop _) (hsplen _) ?_
            intro k hk
            refine Or.inr ⟨(hwf k).1, hstop k, hsplen k, ?_⟩
            simp only [List.mem_cons, List.not_mem_nil, or_false] at hk
            rcases hk with rfl | rfl | rfl | rfl | rfl
            · rcases hdisj Component.account_code Component.account_holder_id (by decide)
                with d | d | d | d
              · exact Or.inl d
              · exact Or.inr (Or.inl d)
              · exact absurd d (by omega)
              · exact Or.inr (Or.inr d)
            · rcases hdisj Component.account_code Component.currency_code (by decide)
                with d | d | d | d
              · exact Or.inl d
              · exact Or.inr (Or.inl d)
              · exact absurd d (by omega)
              · exact Or.inr (Or.inr d)
            · rcases hdisj Component.account_code Component.bank_code (by decide)
                with d | d | d | d
              · exact Or.inl d
              · exact Or.inr (Or.inl d)
              · exact absurd d (by omega)
              · exact Or.inr (Or.inr d)
            · rcases hdisj Component.account_code Component.branch_code (by decide)
                with d | d | d | d
              · exact Or.inl d
              · exact Or.inr (Or.inl d)
              · exact absurd d (by omega)
              · exact Or.inr (Or.inr d)
            · rcases hdisj Component.account_code Component.national_checksum_digits (by decide)
                with d | d | d | d
              · exact Or.inl d
              · exact Or.inr (Or.inl d)
              · exact absurd d (by omega)
              · exact Or.inr (Or.inr d)
          have hsb : spliceChecksum (paddedComponents (componentValues bank [] account) ranges)
              cs Component.bank_code = zfill bank (ranges Component.bank_code).length := by
            rw [spliceChecksum_ne _ _ (by decide)]
            show zfill (clean bank) (ranges Component.bank_code).length = _
            rw [hbclean]
          have hsa : spliceChecksum (paddedComponents (componentValues bank [] account) ranges)
              cs Component.account_code = zfill account (ranges Component.account_code).length := by
            rw [spliceChecksum_ne _ _ (by decide)]
            show zfill (clean account) (ranges Component.account_code).length = _
            rw [haclean]
          refine ⟨hcc, ?_, ?_⟩
          · show ((getBbanSpec reg (mkIBAN (cc ++ cs2 ++ b.val)).bban.country_code).map
              (fun spec' => componentOf spec' (mkIBAN (cc ++ cs2 ++ b.val)).bban
                Component.bank_code)) = _
            rw [hbcc, hspecok]
            simp only [Except.map]
            rw [hcomp, getSlice_eq_pySlice hltb hleb, hreadbank, hsb]
          · show ((getBbanSpec reg (mkIBAN (cc ++ cs2 ++ b.val)).bban.country_code).map
              (fun spec' => componentOf spec' (mkIBAN (cc ++ cs2 ++ b.val)).bban
                Component.account_code)) = _
            rw [hbcc, hspecok]
            simp only [Except.map]
            rw [hcomp, getSlice_eq_pySlice hlta hlea, hreadaccount, hsa]

/-- C2 witness: the DE fixture round-trips the bank and account codes through
`generate`. -/
theorem claim_C2_witness :
    ∃ i, IBAN.generate testRegistry "DE".toList "37040044".toList "532013000".toList []
        = .ok i
      ∧ i.country_code = "DE".toList
      ∧ IBAN.bank_code testRegistry i
          = .ok (zfill "37040044".toList
              ((deSpec.positions.getD (fun _ => ⟨0, 0⟩)) Component.bank_code).length)
      ∧ IBAN.account_code testRegistry i
          = .ok (zfill "532013000".toList
              ((deSpec.positions.getD (fun _ => ⟨0, 0⟩)) Component.account_code).length) :=
  ⟨mkIBAN "DE89370400440532013000".toList, by decide,
    claim_C2 testRegistry "DE".toList deSpec (deSpec.positions.getD (fun _ => ⟨0, 0⟩))
      "37040044".toList "532013000".toList rfl rfl rfl (by decide) (by decide) (by decide)
      (by decide) (by decide) (by decide) (by decide)
      (by intro k; cases k <;> simp [deSpec, Range.length])
      (by intro k k' h; cases k <;> cases k' <;> revert h <;> decide)
      (fun cs h => Or.inl (Except.ok.inj ((rfl :
        compute_national_checksum "DE".toList
          (paddedComponents (componentValues "37040044".toList [] "532013000".toList)
            (deSpec.positions.getD (fun _ => ⟨0, 0⟩))) = .ok []).symm.trans h)).symm)
      (mkIBAN "DE89370400440532013000".toList) (by decide)⟩

end Schwifty
